import Mathlib

/-!
Verification of the `deno_big_dig` voxel-world core.

This file gives a shallow embedding, in Lean 4, of the parts of the game's
core that the specification talks about:

* the inline procedural generator and world store (`class World` of
  `src/lib/workers/types.ts`, third document: `generateChunk`,
  `getTerrainHeight`, `noise2D`, `generateTrees`, `random`, `getBlock`,
  `setBlock`, `getChunk`),
* the background generation worker (`class ChunkGenerator` of the
  chunk-generator worker file),
* the mesh worker (`class MeshBuilder` of
  `src/lib/workers/mesh-builder-worker.ts`),
* the worker-pool scheduler (`class WorkerPool` of
  `src/lib/workers/types.ts`, second document),
* the two workers' `self.onmessage` handlers.

Modelling conventions:

* JavaScript numbers are embedded as `ℚ` (for quantities produced by
  fractional arithmetic) and `ℤ`/`ℕ` (for quantities that are integral in
  every reachable state).  All the concrete arithmetic the theorems below
  depend on is exact in IEEE doubles as well (small integers, multiples of
  1/4, and the bracketing facts `0 ≤ frac n < 1`), so no rounding gap
  separates the model from the running program.
* `Math.sin` is transcendental and its exact values never matter to the
  program's control flow beyond the bracketing fact above, so the
  development is parameterised by an arbitrary function `msin : ℚ → ℚ`
  standing for it.  Every theorem quantifies over `msin`.
* A `Uint8Array(4096)` is embedded as a total function `ℤ → ℕ`: it starts
  zero-filled, a write masks the value to a byte and is dropped when the
  index is out of range (JavaScript typed-array semantics), and every read
  performed by the embedded code is in range.
* The string-keyed chunk map `Map<string, Chunk>` (keys `"x,y,z"`) is
  embedded as a function `ℤ × ℤ × ℤ → Option Chunk`; the key encoding is
  injective on integer triples, so the triple itself is used as the key.
-/

/-- `CHUNK_SIZE` from `src/lib/types.ts` (and the copies duplicated into the
two workers). -/
def CHUNK_SIZE : ℤ := 16

/-- A `Uint8Array(CHUNK_SIZE ** 3)` of block codes, as a total map from
index to byte. -/
abbrev Blocks : Type := ℤ → ℕ

/-- `arr[i] = v` on a `Uint8Array(4096)`: masked to a byte, silently dropped
out of range. -/
def writeBlock (b : Blocks) (i : ℤ) (v : ℕ) : Blocks :=
  fun j => if 0 ≤ i ∧ i < 4096 ∧ j = i then v % 256 else b j

/-- The generation configuration `{flatness, treeFrequency}` supplied by the
configuration UI (`GameConfig`). -/
structure GameConfig where
  flatness : ℚ
  treeFrequency : ℚ
deriving DecidableEq

/-- A chunk (`Chunk` of `src/lib/types.ts` / `SerializableChunk` of the
worker protocol): position on the chunk grid, flat block array, dirty
flag. -/
structure Chunk where
  position : ℤ × ℤ × ℤ
  blocks : Blocks
  isDirty : Bool

/- Block codes of the *inline* enum `BlockType` (`src/lib/types.ts`). -/
namespace MainBlock

def AIR : ℕ := 0
def STONE : ℕ := 1
def DIRT : ℕ := 2
def GRASS : ℕ := 3
def WOOD : ℕ := 4
def LEAVES : ℕ := 5
def WATER : ℕ := 6
def SAND : ℕ := 7
def COBBLESTONE : ℕ := 8
def PLANKS : ℕ := 9

end MainBlock

/- Block codes of the `BlockTypeEnum` object duplicated into *both worker
files*.  Note the codes differ from `MainBlock` for GRASS/STONE and
WATER/SAND/COBBLESTONE/PLANKS. -/
namespace WorkerBlock

def AIR : ℕ := 0
def GRASS : ℕ := 1
def DIRT : ℕ := 2
def STONE : ℕ := 3
def WOOD : ℕ := 4
def LEAVES : ℕ := 5
def SAND : ℕ := 6
def COBBLESTONE : ℕ := 7
def PLANKS : ℕ := 8
def WATER : ℕ := 9

end WorkerBlock

/-- The guarded leaf write both tree passes use verbatim:
`if (blocks[index] === BlockType.AIR) blocks[index] = BlockType.LEAVES;`
(the two block enums agree on `AIR = 0` and `LEAVES = 5`, so one
definition serves both generators). -/
def leafWrite (bd : Blocks) (index : ℤ) : Blocks :=
  if bd index = 0 then writeBlock bd index 5 else bd

/-!
## The generation worker: `class ChunkGenerator`

Every function takes the `Math.sin` stand-in `msin` as its first argument.
-/

/-- The `ChunkGenerator` instance state: `seed` and `config`. -/
structure CG where
  seed : ℚ
  config : GameConfig

namespace ChunkGenerator

/-- `ChunkGenerator.noise2D`:
`sin(x * 12.9898 + y * 78.233 + seed * 37.719) * 43758.5453`, fractional
part, rescaled to `[-1, 1)`. -/
def noise2D (msin : ℚ → ℚ) (g : CG) (x y : ℚ) : ℚ :=
  let n := msin (x * 12.9898 + y * 78.233 + g.seed * 37.719) * 43758.5453
  (n - ⌊n⌋) * 2 - 1

/-- `ChunkGenerator.random`:
`sin(seed' * 12.9898 + seed * 78.233) * 43758.5453`, fractional part. -/
def random (msin : ℚ → ℚ) (g : CG) (s : ℚ) : ℚ :=
  let n := msin (s * 12.9898 + g.seed * 78.233) * 43758.5453
  n - ⌊n⌋

/-- `ChunkGenerator.getTerrainHeight`: constant 20 when `flatness ≥ 1`,
otherwise two octaves of noise scaled by `3 * (1 - flatness)` around base
height 20. -/
def getTerrainHeight (msin : ℚ → ℚ) (g : CG) (x z : ℚ) : ℤ :=
  let baseHeight : ℤ := 20
  if g.config.flatness ≥ 1 then baseHeight
  else
    let scale : ℚ := 0.02
    let amplitude : ℚ := 3 * (1 - g.config.flatness)
    let noise := noise2D msin g (x * scale) (z * scale)
    let octave1 := noise2D msin g (x * scale * 2) (z * scale * 2) * 0.3
    ⌊(baseHeight : ℚ) + (noise + octave1) * amplitude⌋

/-- One cell of `ChunkGenerator.generateTerrain`'s innermost loop body:
stone / dirt / grass / air by depth below the column height. -/
def terrainWrite (height worldY : ℤ) (bb : Blocks) (index : ℤ) : Blocks :=
  if worldY < height - 3 then writeBlock bb index WorkerBlock.STONE
  else if worldY < height - 1 then writeBlock bb index WorkerBlock.DIRT
  else if worldY < height then writeBlock bb index WorkerBlock.GRASS
  else writeBlock bb index WorkerBlock.AIR

/-- `ChunkGenerator.generateTerrain`: triple loop over local `x`, `z`, `y`,
writing `blocks[x + y*16 + z*256]` from the column height at the world
column `(x, z)`. -/
def generateTerrain (msin : ℚ → ℚ) (g : CG) (chunkX chunkY chunkZ : ℤ)
    (b0 : Blocks) : Blocks :=
  (List.range 16).foldl (fun bx (x : ℕ) =>
    (List.range 16).foldl (fun bz (z : ℕ) =>
      let worldX : ℤ := chunkX * CHUNK_SIZE + (x : ℤ)
      let worldZ : ℤ := chunkZ * CHUNK_SIZE + (z : ℤ)
      let height := getTerrainHeight msin g (worldX : ℚ) (worldZ : ℚ)
      (List.range 16).foldl (fun bb (y : ℕ) =>
        let worldY : ℤ := chunkY * CHUNK_SIZE + (y : ℤ)
        let index : ℤ := (x : ℤ) + (y : ℤ) * 16 + (z : ℤ) * 256
        terrainWrite height worldY bb index) bz) bx) b0

/-- The trunk loop of `ChunkGenerator.placeTree` (trunk of height
`4 + ⌊random * 3⌋` written bottom-up, unconditional wood writes clipped to
the chunk).  In the leaf loop below, the source's
`Math.sqrt(dx*dx + dz*dz) <= currentRadius` is embedded as
`dx*dx + dz*dz ≤ currentRadius * currentRadius`, which is equivalent for
the nonnegative radii involved (and exact in doubles for these small
integers). -/
def placeTrunk (ch : Blocks) (localX localY localZ treeHeight : ℤ) : Blocks :=
  -- place trunk: for (y = 0; y < treeHeight; y++)
  (List.range treeHeight.toNat).foldl (fun bb (y : ℕ) =>
    let trunkY : ℤ := localY + (y : ℤ)
    if 0 ≤ trunkY ∧ trunkY < CHUNK_SIZE then
      writeBlock bb (localX + trunkY * 16 + localZ * 256) WorkerBlock.WOOD
    else bb) ch

/-- The leaf loop of `ChunkGenerator.placeTree`: three shrinking rings
around the upper trunk, skipping the trunk column itself, every write the
guarded `leafWrite`. -/
def placeLeaves (b1 : Blocks) (localX localZ leavesStartY : ℤ) : Blocks :=
  -- place leaves: leavesRadius = 2, leavesHeight = 3
  (List.range 3).foldl (fun bb (dy : ℕ) =>
    let y := leavesStartY + (dy : ℤ)
    if y < 0 ∨ CHUNK_SIZE ≤ y then bb
    else
      let currentRadius : ℤ := if dy = 2 then 1 else 2
      (List.range (2 * currentRadius + 1).toNat).foldl (fun bc dxi =>
        let dx : ℤ := (dxi : ℤ) - currentRadius
        (List.range (2 * currentRadius + 1).toNat).foldl (fun bd dzi =>
          let dz : ℤ := (dzi : ℤ) - currentRadius
          if dx = 0 ∧ dz = 0 then bd  -- skip center (trunk)
          else
            let leafX := localX + dx
            let leafZ := localZ + dz
            if 0 ≤ leafX ∧ leafX < CHUNK_SIZE ∧ 0 ≤ leafZ ∧ leafZ < CHUNK_SIZE then
              if dx * dx + dz * dz ≤ currentRadius * currentRadius then
                leafWrite bd (leafX + y * 16 + leafZ * 256)
              else bd
            else bd) bc) bb) b1

/-- `ChunkGenerator.placeTree` itself: trunk first, then the leaf rings
starting at `localY + treeHeight - 1`. -/
def placeTree (msin : ℚ → ℚ) (g : CG) (ch : Blocks)
    (localX localY localZ chunkX chunkY chunkZ : ℤ) : Blocks :=
  let _ := chunkY  -- passed by the source but unused by it
  let treeHeight : ℤ :=
    4 + ⌊random msin g ((localX + localZ + chunkX + chunkZ : ℤ) : ℚ) * 3⌋
  placeLeaves (placeTrunk ch localX localY localZ treeHeight)
    localX localZ (localY + treeHeight - 1)

/-- The body of `ChunkGenerator.generateTrees`'s double loop for one
candidate site `(x, z)`: a site noise value crossed against
`treeFrequency` decides placement. -/
def treeSite (msin : ℚ → ℚ) (g : CG) (chunkX chunkY chunkZ : ℤ)
    (bz : Blocks) (x z : ℤ) : Blocks :=
  let worldX := chunkX * CHUNK_SIZE + x
  let worldZ := chunkZ * CHUNK_SIZE + z
  let treeNoise := noise2D msin g ((worldX : ℚ) * 0.1) ((worldZ : ℚ) * 0.1)
  if treeNoise > 1 - g.config.treeFrequency * 2 then
    let groundHeight := getTerrainHeight msin g (worldX : ℚ) (worldZ : ℚ)
    placeTree msin g bz x (groundHeight - chunkY * CHUNK_SIZE) z
      chunkX chunkY chunkZ
  else bz

/-- `ChunkGenerator.generateTrees`: candidate sites on the grid
`x, z ∈ {2, 5, 8, 11}` (the loop `for (x = 2; x < 14; x += 3)`). -/
def generateTrees (msin : ℚ → ℚ) (g : CG) (ch : Blocks)
    (chunkX chunkY chunkZ : ℤ) : Blocks :=
  ([2, 5, 8, 11] : List ℤ).foldl (fun bx x =>
    ([2, 5, 8, 11] : List ℤ).foldl (fun bz z =>
      treeSite msin g chunkX chunkY chunkZ bz x z) bx) ch

/-- `ChunkGenerator.generateChunk`: zero-filled array, terrain, then trees
when the chunk overlaps the surface band
(`chunkY * 16 ≤ 30 && (chunkY + 1) * 16 ≥ 15`). -/
def generateChunk (msin : ℚ → ℚ) (g : CG) (chunkX chunkY chunkZ : ℤ) : Chunk :=
  let b0 : Blocks := fun _ => 0
  let terr := generateTerrain msin g chunkX chunkY chunkZ b0
  let blocks :=
    if chunkY * CHUNK_SIZE ≤ 30 ∧ 15 ≤ (chunkY + 1) * CHUNK_SIZE then
      generateTrees msin g terr chunkX chunkY chunkZ
    else terr
  { position := (chunkX, chunkY, chunkZ), blocks := blocks, isDirty := true }

end ChunkGenerator

/-!
## The inline world store and generator: `class World`
(third document of `src/lib/workers/types.ts`)
-/

/-- The `World` instance state: the chunk map and the seed.  (The inline
`World` takes no generation config.) -/
structure World where
  chunks : ℤ × ℤ × ℤ → Option Chunk
  seed : ℚ

namespace World

/-- `new World(seed)`: empty chunk map. -/
def new (seed : ℚ) : World := { chunks := fun _ => none, seed := seed }

/-- `World.noise2D`: `sin(x * 12.9898 + y * 78.233 + seed) * 43758.5453`,
fractional part, rescaled to `[-1, 1)`.  (The seed enters *additively*,
unlike the worker's `seed * 37.719`.) -/
def noise2D (msin : ℚ → ℚ) (seed : ℚ) (x y : ℚ) : ℚ :=
  let n := msin (x * 12.9898 + y * 78.233 + seed) * 43758.5453
  (n - ⌊n⌋) * 2 - 1

/-- `World.getTerrainHeight`: scale 0.02, amplitude fixed at 3, base height
20.  (No `flatness` — the inline `World` has no config.) -/
def getTerrainHeight (msin : ℚ → ℚ) (seed : ℚ) (x z : ℚ) : ℤ :=
  let scale : ℚ := 0.02
  let amplitude : ℚ := 3
  let baseHeight : ℚ := 20
  let noise := noise2D msin seed (x * scale) (z * scale)
  let octave1 := noise2D msin seed (x * scale * 2) (z * scale * 2) * 0.3
  ⌊baseHeight + (noise + octave1) * amplitude⌋

/-- `World.random`: `sin(seed' + this.seed) * 10000`, fractional part. -/
def random (msin : ℚ → ℚ) (seed : ℚ) (s : ℚ) : ℚ :=
  let x := msin (s + seed) * 10000
  x - ⌊x⌋

/-- One cell of the inline `World.generateChunk` terrain loop body (codes
from the inline `BlockType` enum). -/
def terrainWrite (height worldY : ℤ) (bb : Blocks) (index : ℤ) : Blocks :=
  if worldY < height - 3 then writeBlock bb index MainBlock.STONE
  else if worldY < height - 1 then writeBlock bb index MainBlock.DIRT
  else if worldY < height then writeBlock bb index MainBlock.GRASS
  else writeBlock bb index MainBlock.AIR

/-- The terrain-filling triple loop of the inline `World.generateChunk`. -/
def generateTerrainBlocks (msin : ℚ → ℚ) (seed : ℚ) (chunkX chunkY chunkZ : ℤ)
    (b0 : Blocks) : Blocks :=
  (List.range 16).foldl (fun bx (x : ℕ) =>
    (List.range 16).foldl (fun bz (z : ℕ) =>
      let worldX : ℤ := chunkX * CHUNK_SIZE + (x : ℤ)
      let worldZ : ℤ := chunkZ * CHUNK_SIZE + (z : ℤ)
      let height := getTerrainHeight msin seed (worldX : ℚ) (worldZ : ℚ)
      (List.range 16).foldl (fun bb (y : ℕ) =>
        let worldY : ℤ := chunkY * CHUNK_SIZE + (y : ℤ)
        let index : ℤ := (x : ℤ) + (y : ℤ) * 16 + (z : ℤ) * 256
        terrainWrite height worldY bb index) bz) bx) b0

/-- The 5×5 diamond leaf ring of the inline `World.generateTrees` at one
layer (cells with `|dx| + |dz| ≤ 3`), every write the guarded
`leafWrite`. -/
def leafRing (b1 : Blocks) (treeX treeZ localY : ℤ) : Blocks :=
  (List.range 5).foldl (fun bc dxi =>
    let dx : ℤ := (dxi : ℤ) - 2
    (List.range 5).foldl (fun bd dzi =>
      let dz : ℤ := (dzi : ℤ) - 2
      if dx.natAbs + dz.natAbs ≤ 3 then
        let lx := treeX + dx
        let lz := treeZ + dz
        if 0 ≤ lx ∧ lx < CHUNK_SIZE ∧ 0 ≤ lz ∧ lz < CHUNK_SIZE then
          leafWrite bd (lx + localY * 16 + lz * 256)
        else bd
      else bd) bc) b1

/-- `World.generateTrees`: at most one tree per chunk, placed when
`random(chunkX * 1000 + chunkZ) < 0.02`; trunk wood below
`groundHeight + 4`, diamond-shaped leaf rings between `groundHeight + 2`
and `groundHeight + 6`, leaves only written into air cells. -/
def generateTreesBlocks (msin : ℚ → ℚ) (seed : ℚ) (ch : Blocks)
    (chunkX chunkY chunkZ : ℤ) : Blocks :=
  let r := random msin seed ((chunkX * 1000 + chunkZ : ℤ) : ℚ)
  if r < 0.02 then
    -- Math.floor(random(chunkX * 100) * (CHUNK_SIZE - 4)) + 2
    let treeX : ℤ := ⌊random msin seed ((chunkX * 100 : ℤ) : ℚ) * 12⌋ + 2
    let treeZ : ℤ := ⌊random msin seed ((chunkZ * 100 : ℤ) : ℚ) * 12⌋ + 2
    let worldX := chunkX * CHUNK_SIZE + treeX
    let worldZ := chunkZ * CHUNK_SIZE + treeZ
    let groundHeight := getTerrainHeight msin seed (worldX : ℚ) (worldZ : ℚ)
    (List.range 16).foldl (fun bb (y : ℕ) =>
      let worldY : ℤ := chunkY * CHUNK_SIZE + (y : ℤ)
      if groundHeight ≤ worldY ∧ worldY < groundHeight + 6 then
        let localY : ℤ := (y : ℤ)
        let trunkIndex := treeX + localY * 16 + treeZ * 256
        let b1 :=
          if worldY < groundHeight + 4 then
            writeBlock bb trunkIndex MainBlock.WOOD
          else bb
        if groundHeight + 2 ≤ worldY ∧ worldY < groundHeight + 6 then
          leafRing b1 treeX treeZ localY
        else b1
      else bb) ch
  else ch

/-- `World.getChunk`. -/
def getChunk (w : World) (x y z : ℤ) : Option Chunk :=
  w.chunks (x, y, z)

/-- `World.generateChunk`: returns the stored chunk when present, otherwise
fills terrain, runs the tree pass (unconditionally — no surface-band gate
here), stores and returns the new chunk.  Returns the chunk together with
the updated store. -/
def generateChunk (msin : ℚ → ℚ) (w : World) (chunkX chunkY chunkZ : ℤ) :
    Chunk × World :=
  match w.chunks (chunkX, chunkY, chunkZ) with
  | some c => (c, w)
  | none =>
    let terr := generateTerrainBlocks msin w.seed chunkX chunkY chunkZ (fun _ => 0)
    let blocks := generateTreesBlocks msin w.seed terr chunkX chunkY chunkZ
    let c : Chunk := { position := (chunkX, chunkY, chunkZ), blocks := blocks,
                       isDirty := true }
    (c, { w with
          chunks := fun k => if k = (chunkX, chunkY, chunkZ) then some c
                             else w.chunks k })

/-- JavaScript `((v % 16) + 16) % 16` on an integer (`%` truncates like
`Int.tmod`). -/
def localCoord (v : ℤ) : ℤ := ((v.tmod 16) + 16).tmod 16

/-- `World.getBlock`, in state-passing form: the body only reads, so the
world component of the result is the input world.  Missing chunk reads as
`BlockType.AIR`. -/
def getBlockS (w : World) (x y z : ℤ) : ℕ × World :=
  let chunkX := Int.fdiv x CHUNK_SIZE  -- Math.floor(x / CHUNK_SIZE)
  let chunkY := Int.fdiv y CHUNK_SIZE
  let chunkZ := Int.fdiv z CHUNK_SIZE
  match getChunk w chunkX chunkY chunkZ with
  | none => (MainBlock.AIR, w)
  | some c =>
    let localX := localCoord x
    let localY := localCoord y
    let localZ := localCoord z
    (c.blocks (localX + localY * 16 + localZ * 256), w)

/-- `World.getBlock`'s return value. -/
def getBlock (w : World) (x y z : ℤ) : ℕ := (getBlockS w x y z).1

/-- `World.setBlock`: generate the chunk on demand if absent, write the
block (byte-masked), mark the chunk dirty. -/
def setBlock (msin : ℚ → ℚ) (w : World) (x y z : ℤ) (blockType : ℕ) : World :=
  let chunkX := Int.fdiv x CHUNK_SIZE
  let chunkY := Int.fdiv y CHUNK_SIZE
  let chunkZ := Int.fdiv z CHUNK_SIZE
  let cw : Chunk × World :=
    match getChunk w chunkX chunkY chunkZ with
    | some c => (c, w)
    | none => generateChunk msin w chunkX chunkY chunkZ
  let c := cw.1
  let w1 := cw.2
  let localX := localCoord x
  let localY := localCoord y
  let localZ := localCoord z
  let index := localX + localY * 16 + localZ * 256
  let c' : Chunk := { c with
    blocks := writeBlock c.blocks index blockType,
    isDirty := true }
  { w1 with
    chunks := fun k => if k = (chunkX, chunkY, chunkZ) then some c'
                       else w1.chunks k }

end World

/-!
## The mesh worker: `class MeshBuilder`
(`src/lib/workers/mesh-builder-worker.ts`)
-/

/-- Componentwise sum of two integer triples (a cell plus a face
normal). -/
def addPos (p q : ℤ × ℤ × ℤ) : ℤ × ℤ × ℤ :=
  (p.1 + q.1, p.2.1 + q.2.1, p.2.2 + q.2.2)

/-- The flat-array index `x + y*16 + z*256` of a local cell. -/
def cellIndex (p : ℤ × ℤ × ℤ) : ℤ :=
  p.1 + p.2.1 * 16 + p.2.2 * 256

/-- The local cell lies inside the chunk cube. -/
abbrev inChunkPos (p : ℤ × ℤ × ℤ) : Prop :=
  0 ≤ p.1 ∧ p.1 < CHUNK_SIZE ∧ 0 ≤ p.2.1 ∧ p.2.1 < CHUNK_SIZE ∧
    0 ≤ p.2.2 ∧ p.2.2 < CHUNK_SIZE

/-- The four parallel growing buffers of `MeshBuilder.buildMesh`
(`vertices`, `normals`, `uvs`, `indices`). -/
structure MeshAcc where
  vertices : List ℚ
  normals : List ℚ
  uvs : List ℚ
  indices : List ℕ

namespace MeshBuilder

/-- `MeshBuilder.isTransparentBlock`: air, water or leaves (worker block
codes). -/
def isTransparentBlock (blockType : ℕ) : Bool :=
  blockType == WorkerBlock.AIR || blockType == WorkerBlock.WATER ||
    blockType == WorkerBlock.LEAVES

/-- The `faces` table of `MeshBuilder.addBlockToMesh`: for each of the six
directions, the outward normal and the four vertex offsets in winding
order (top, bottom, front, back, right, left). -/
def faces : List ((ℤ × ℤ × ℤ) × List (ℤ × ℤ × ℤ)) :=
  [ ((0, 1, 0), [(0, 1, 0), (0, 1, 1), (1, 1, 1), (1, 1, 0)]),
    ((0, -1, 0), [(0, 0, 0), (1, 0, 0), (1, 0, 1), (0, 0, 1)]),
    ((0, 0, 1), [(0, 0, 1), (1, 0, 1), (1, 1, 1), (0, 1, 1)]),
    ((0, 0, -1), [(1, 0, 0), (0, 0, 0), (0, 1, 0), (1, 1, 0)]),
    ((1, 0, 0), [(1, 0, 0), (1, 1, 0), (1, 1, 1), (1, 0, 1)]),
    ((-1, 0, 0), [(0, 0, 1), (0, 1, 1), (0, 1, 0), (0, 0, 0)]) ]

/-- `getTextureUV` inside `MeshBuilder.getTextureCoords`: the 4 corner UV
pairs of cell `textureIndex` of a 4×4 atlas (cell size 0.25). -/
def getTextureUV (textureIndex : ℕ) : List ℚ :=
  let textureSize : ℚ := 0.25
  let u : ℚ := (textureIndex % 4 : ℕ) * textureSize
  let v : ℚ := (textureIndex / 4 : ℕ) * textureSize  -- Math.floor(i / 4)
  [u, v + textureSize, u + textureSize, v + textureSize,
   u + textureSize, v, u, v]

/-- `MeshBuilder.getTextureCoords`: per-block-type, per-face texture
lookup. -/
def getTextureCoords (blockType : ℕ) : List (List ℚ) :=
  if blockType = WorkerBlock.GRASS then
    [getTextureUV 0, getTextureUV 2, getTextureUV 1, getTextureUV 1,
     getTextureUV 1, getTextureUV 1]
  else if blockType = WorkerBlock.DIRT then
    List.replicate 6 (getTextureUV 2)
  else if blockType = WorkerBlock.STONE then
    List.replicate 6 (getTextureUV 3)
  else if blockType = WorkerBlock.WOOD then
    [getTextureUV 5, getTextureUV 5, getTextureUV 4, getTextureUV 4,
     getTextureUV 4, getTextureUV 4]
  else if blockType = WorkerBlock.LEAVES then
    List.replicate 6 (getTextureUV 6)
  else if blockType = WorkerBlock.SAND then
    List.replicate 6 (getTextureUV 7)
  else if blockType = WorkerBlock.COBBLESTONE then
    List.replicate 6 (getTextureUV 8)
  else if blockType = WorkerBlock.PLANKS then
    List.replicate 6 (getTextureUV 9)
  else
    List.replicate 6 (getTextureUV 10)

/-- `MeshBuilder.getNeighborBlock`: resolve an adjacent cell that crosses
the chunk boundary through the supplied neighbor-chunk map.  `none` when
the needed neighbor chunk is absent or `null`. -/
def getNeighborBlock (chunk : Chunk) (pos normal : ℤ × ℤ × ℤ)
    (neighborChunks : ℤ × ℤ × ℤ → Option Chunk) : Option ℕ :=
  let nx := pos.1 + normal.1
  let ny := pos.2.1 + normal.2.1
  let nz := pos.2.2 + normal.2.2
  let cx := chunk.position.1 + (if nx < 0 then -1 else if CHUNK_SIZE ≤ nx then 1 else 0)
  let cy := chunk.position.2.1 + (if ny < 0 then -1 else if CHUNK_SIZE ≤ ny then 1 else 0)
  let cz := chunk.position.2.2 + (if nz < 0 then -1 else if CHUNK_SIZE ≤ nz then 1 else 0)
  let localX := if nx < 0 then CHUNK_SIZE - 1 else if CHUNK_SIZE ≤ nx then 0 else nx
  let localY := if ny < 0 then CHUNK_SIZE - 1 else if CHUNK_SIZE ≤ ny then 0 else ny
  let localZ := if nz < 0 then CHUNK_SIZE - 1 else if CHUNK_SIZE ≤ nz then 0 else nz
  match neighborChunks (cx, cy, cz) with
  | none => none
  | some nb => some (nb.blocks (localX + localY * 16 + localZ * 256))

/-- `MeshBuilder.shouldRenderFace`: render when the adjacent cell (resolved
in-chunk, else through the neighbor map) is air or transparent; default to
rendering at unresolvable chunk boundaries. -/
def shouldRenderFace (chunk : Chunk) (pos normal : ℤ × ℤ × ℤ)
    (neighborChunks : Option (ℤ × ℤ × ℤ → Option Chunk)) : Bool :=
  let nx := pos.1 + normal.1
  let ny := pos.2.1 + normal.2.1
  let nz := pos.2.2 + normal.2.2
  if 0 ≤ nx ∧ nx < CHUNK_SIZE ∧ 0 ≤ ny ∧ ny < CHUNK_SIZE ∧
     0 ≤ nz ∧ nz < CHUNK_SIZE then
    let adjacentBlock := chunk.blocks (nx + ny * 16 + nz * 256)
    adjacentBlock == WorkerBlock.AIR || isTransparentBlock adjacentBlock
  else
    match neighborChunks with
    | some nmap =>
      match getNeighborBlock chunk pos normal nmap with
      | some nb => nb == WorkerBlock.AIR || isTransparentBlock nb
      | none => true
    | none => true

/-- The body of `addBlockToMesh`'s `faces.forEach` for one face paired
with its texture coordinates: if `shouldRenderFace` accepts it, append 4
vertices (12 coordinates), 4 normals (12 coordinates), 4 UV pairs
(8 coordinates) and 6 triangle indices. -/
def addFace (chunk : Chunk) (localPos : ℤ × ℤ × ℤ)
    (neighborChunks : Option (ℤ × ℤ × ℤ → Option Chunk))
    (worldPos : ℤ × ℤ × ℤ) (a : MeshAcc)
    (ft : ((ℤ × ℤ × ℤ) × List (ℤ × ℤ × ℤ)) × List ℚ) : MeshAcc :=
  let normal := ft.1.1
  let fverts := ft.1.2
  if shouldRenderFace chunk localPos normal neighborChunks then
    let faceBaseIndex : ℕ := a.vertices.length / 3
    { vertices := a.vertices ++
        (fverts.map (fun vtx =>
          [((worldPos.1 + vtx.1 : ℤ) : ℚ), ((worldPos.2.1 + vtx.2.1 : ℤ) : ℚ),
           ((worldPos.2.2 + vtx.2.2 : ℤ) : ℚ)])).flatten,
      normals := a.normals ++
        (fverts.map (fun _ =>
          [((normal.1 : ℤ) : ℚ), ((normal.2.1 : ℤ) : ℚ),
           ((normal.2.2 : ℤ) : ℚ)])).flatten,
      uvs := a.uvs ++ ft.2,
      indices := a.indices ++
        [faceBaseIndex, faceBaseIndex + 1, faceBaseIndex + 2,
         faceBaseIndex, faceBaseIndex + 2, faceBaseIndex + 3] }
  else a

/-- `MeshBuilder.addBlockToMesh`: run `addFace` over the six faces zipped
with their texture coordinates. -/
def addBlockToMesh (blockType : ℕ) (worldPos : ℤ × ℤ × ℤ) (chunk : Chunk)
    (localPos : ℤ × ℤ × ℤ) (neighborChunks : Option (ℤ × ℤ × ℤ → Option Chunk))
    (acc : MeshAcc) : MeshAcc :=
  (faces.zip (getTextureCoords blockType)).foldl
    (addFace chunk localPos neighborChunks worldPos) acc

/-- `MeshBuilder.buildMesh`: loop over every cell, skip air, add the
remaining blocks' visible faces. -/
def buildMesh (chunk : Chunk)
    (neighborChunks : Option (ℤ × ℤ × ℤ → Option Chunk)) : MeshAcc :=
  (List.range 16).foldl (fun ax (x : ℕ) =>
    (List.range 16).foldl (fun ay (y : ℕ) =>
      (List.range 16).foldl (fun az (z : ℕ) =>
        let index : ℤ := (x : ℤ) + (y : ℤ) * 16 + (z : ℤ) * 256
        let blockType := chunk.blocks index
        if blockType = WorkerBlock.AIR then az
        else
          let worldPos : ℤ × ℤ × ℤ :=
            (chunk.position.1 * CHUNK_SIZE + (x : ℤ),
             chunk.position.2.1 * CHUNK_SIZE + (y : ℤ),
             chunk.position.2.2 * CHUNK_SIZE + (z : ℤ))
          addBlockToMesh blockType worldPos chunk ((x : ℤ), (y : ℤ), (z : ℤ))
            neighborChunks az) ay) ax)
    { vertices := [], normals := [], uvs := [], indices := [] }

end MeshBuilder

/-!
## The worker-pool scheduler: `class WorkerPool`
(second document of `src/lib/workers/types.ts`)

`performance.now()` readings are nondeterministic inputs; each operation
that reads the clock takes the reading as a `now : ℚ` argument.  Futures
are modelled by an event trace: each operation additionally returns the
list of `resolve` / `reject` calls it performs and the requests it posts
to workers.
-/

/-- Which of the two fixed pools a worker or task belongs to. -/
inductive PoolKind
  | chunk
  | mesh
deriving DecidableEq

/-- `WorkerTask` (continuations omitted — they are represented by the id in
the event trace). -/
structure WorkerTask where
  id : ℕ
  priority : ℕ
  timestamp : ℚ
  kind : PoolKind
deriving DecidableEq

/-- `WorkerInfo`: one worker handle. -/
structure WorkerInfo where
  busy : Bool
  currentTask : Option WorkerTask
  completedTasks : ℕ
  totalTime : ℚ
deriving DecidableEq

/-- `WorkerPoolStats`. -/
structure PoolStats where
  totalWorkers : ℕ
  activeWorkers : ℤ
  queuedTasks : ℕ
  completedTasks : ℕ
  failedTasks : ℕ
  averageTaskTime : ℚ
deriving DecidableEq

/-- The `WorkerPool` instance state: the two worker arrays, the single
shared priority queue, the pending-task table (`Map<string, WorkerTask>`,
keyed by task id) and the id counter. -/
structure PoolState where
  chunkWorkers : List WorkerInfo
  meshWorkers : List WorkerInfo
  taskQueue : List WorkerTask
  pendingTasks : List (ℕ × WorkerTask)
  nextTaskId : ℕ
  stats : PoolStats
deriving DecidableEq

/-- Externally visible actions of a pool operation: a task future resolved
or rejected, or a request posted to a worker. -/
inductive Ev
  | resolved (id : ℕ)
  | rejected (id : ℕ)
  | posted (id : ℕ)
deriving DecidableEq

/-- The `type` tag of a message a worker sends back (plus `other` for the
initial `READY` notification, which carries no task result). -/
inductive WorkerResponse
  | chunkReady
  | meshReady
  | error (e : String)
  | other
deriving DecidableEq

namespace WorkerPool

/-- Select one of the two pools. -/
def getPool (s : PoolState) : PoolKind → List WorkerInfo
  | .chunk => s.chunkWorkers
  | .mesh => s.meshWorkers

/-- Replace one of the two pools. -/
def setPool (s : PoolState) (k : PoolKind) (ws : List WorkerInfo) : PoolState :=
  match k with
  | .chunk => { s with chunkWorkers := ws }
  | .mesh => { s with meshWorkers := ws }

/-- `pendingTasks.get(id)`. -/
def pendingGet (p : List (ℕ × WorkerTask)) (i : ℕ) : Option WorkerTask :=
  (p.find? (fun e => e.1 == i)).map (·.2)

/-- `pendingTasks.set(id, task)`. -/
def pendingSet (p : List (ℕ × WorkerTask)) (i : ℕ) (t : WorkerTask) :
    List (ℕ × WorkerTask) :=
  (i, t) :: p.filter (fun e => e.1 != i)

/-- `pendingTasks.delete(id)`. -/
def pendingDelete (p : List (ℕ × WorkerTask)) (i : ℕ) :
    List (ℕ × WorkerTask) :=
  p.filter (fun e => e.1 != i)

/-- The scan of `WorkerPool.queueTask` that finds the insertion point: the
index of the first queued task of strictly lower priority (queue length
when there is none). -/
def insertIndexOf : List WorkerTask → ℕ → ℕ
  | [], _ => 0
  | q :: rest, prio => if q.priority < prio then 0 else insertIndexOf rest prio + 1

/-- `WorkerPool.queueTask`: splice the task in at `insertIndexOf`. -/
def queueTask (s : PoolState) (task : WorkerTask) : PoolState :=
  let insertIndex := insertIndexOf s.taskQueue task.priority
  let q := s.taskQueue.take insertIndex ++ task :: s.taskQueue.drop insertIndex
  { s with taskQueue := q, stats := { s.stats with queuedTasks := q.length } }

/-- `WorkerPool.assignTaskToWorker`: mark the worker busy, hand it the task
(with its start time updated to `now`), post the request. -/
def assignTaskToWorker (s : PoolState) (k : PoolKind) (i : ℕ)
    (task : WorkerTask) (now : ℚ) : PoolState × List Ev :=
  match (getPool s k)[i]? with
  | none => (s, [])
  | some w =>
    let task' := { task with timestamp := now }
    let w' := { w with busy := true, currentTask := some task' }
    let s1 := setPool s k ((getPool s k).set i w')
    ({ s1 with
       stats := { s1.stats with activeWorkers := s1.stats.activeWorkers + 1 } },
     [Ev.posted task.id])

/-- `WorkerPool.submitTask`: record the new task in the pending table, then
either dispatch it to the first idle worker of the pool or insert it into
the priority queue.  The task id is the bumped counter (`generateTaskId`). -/
def submitTask (s : PoolState) (k : PoolKind) (priority : ℕ) (now : ℚ) :
    PoolState × List Ev :=
  let tid := s.nextTaskId + 1
  let task : WorkerTask := { id := tid, priority := priority, timestamp := now,
                             kind := k }
  let s1 := { s with
    nextTaskId := tid,
    pendingTasks := pendingSet s.pendingTasks task.id task }
  match (getPool s1 k).findIdx? (fun w => !w.busy) with
  | some i => assignTaskToWorker s1 k i task now
  | none => (queueTask s1 task, [])

/-- `WorkerPool.processNextTask`: pop the queue head (if any) and assign it
to the now-free worker. -/
def processNextTask (s : PoolState) (k : PoolKind) (i : ℕ) (now : ℚ) :
    PoolState × List Ev :=
  match s.taskQueue with
  | [] => (s, [])
  | task :: rest =>
    let s1 := { s with
      taskQueue := rest,
      stats := { s.stats with queuedTasks := rest.length } }
    assignTaskToWorker s1 k i task now

/-- `WorkerPool.handleWorkerMessage`: free the worker, update its and the
pool's statistics, drop the task from the pending table, resolve or reject
its future according to the message type, then immediately dispatch the
next queued task to the freed worker. -/
def handleWorkerMessage (s : PoolState) (k : PoolKind) (i : ℕ)
    (resp : WorkerResponse) (now : ℚ) : PoolState × List Ev :=
  match (getPool s k)[i]? with
  | none => (s, [])
  | some w =>
    match w.currentTask with
    | none => (s, [])
    | some task =>
      let completionTime := now - task.timestamp
      let w' : WorkerInfo := { busy := false, currentTask := none,
                               completedTasks := w.completedTasks + 1,
                               totalTime := w.totalTime + completionTime }
      let s1 := setPool s k ((getPool s k).set i w')
      let completed := s1.stats.completedTasks + 1
      let s2 := { s1 with stats := { s1.stats with
        activeWorkers := s1.stats.activeWorkers - 1,
        completedTasks := completed,
        averageTaskTime :=
          (s1.stats.averageTaskTime * ((completed : ℚ) - 1) + completionTime) /
            (completed : ℚ) } }
      let s3 := { s2 with pendingTasks := pendingDelete s2.pendingTasks task.id }
      let se : PoolState × List Ev :=
        match resp with
        | .error _ =>
          ({ s3 with stats := { s3.stats with
              failedTasks := s3.stats.failedTasks + 1 } },
           [Ev.rejected task.id])
        | .chunkReady => (s3, [Ev.resolved task.id])
        | .meshReady => (s3, [Ev.resolved task.id])
        | .other => (s3, [])
      let next := processNextTask se.1 k i now
      (next.1, se.2 ++ next.2)

/-- `WorkerPool.handleWorkerError` (transport-level worker fault): reject
the in-flight task if any, free the worker, keep draining the queue. -/
def handleWorkerError (s : PoolState) (k : PoolKind) (i : ℕ) (now : ℚ) :
    PoolState × List Ev :=
  match (getPool s k)[i]? with
  | none => (s, [])
  | some w =>
    let se : PoolState × List Ev :=
      match w.currentTask with
      | some task =>
        ({ s with
           stats := { s.stats with failedTasks := s.stats.failedTasks + 1 },
           pendingTasks := pendingDelete s.pendingTasks task.id },
         [Ev.rejected task.id])
      | none => (s, [])
    let w' := { w with busy := false, currentTask := none }
    let s2 := setPool se.1 k ((getPool se.1 k).set i w')
    let s3 := { s2 with stats := { s2.stats with
      activeWorkers := s2.stats.activeWorkers - 1 } }
    let next := processNextTask s3 k i now
    (next.1, se.2 ++ next.2)

/-- `WorkerPool.clearQueue`: reject every queued task, drop each from the
pending table, empty the queue. -/
def clearQueue (s : PoolState) : PoolState × List Ev :=
  let evs := s.taskQueue.map (fun t => Ev.rejected t.id)
  let pending := s.taskQueue.foldl (fun p t => pendingDelete p t.id) s.pendingTasks
  ({ s with
      taskQueue := [],
      pendingTasks := pending,
      stats := { s.stats with queuedTasks := 0 } }, evs)

/-- `WorkerPool.dispose`: clear the queue, reject everything still pending,
drop all workers. -/
def dispose (s : PoolState) : PoolState × List Ev :=
  let ce := clearQueue s
  let evs2 := ce.1.pendingTasks.map (fun e => Ev.rejected e.2.id)
  ({ ce.1 with pendingTasks := [], chunkWorkers := [], meshWorkers := [] },
   ce.2 ++ evs2)

/-- A freshly constructed worker handle. -/
def newWorker : WorkerInfo :=
  { busy := false, currentTask := none, completedTasks := 0, totalTime := 0 }

/-- The state the `WorkerPool` constructor builds: idle workers, empty
queue, empty pending table. -/
def mkPool (chunkWorkerCount meshWorkerCount : ℕ) : PoolState :=
  { chunkWorkers := List.replicate chunkWorkerCount newWorker,
    meshWorkers := List.replicate meshWorkerCount newWorker,
    taskQueue := [], pendingTasks := [], nextTaskId := 0,
    stats := { totalWorkers := chunkWorkerCount + meshWorkerCount,
               activeWorkers := 0, queuedTasks := 0, completedTasks := 0,
               failedTasks := 0, averageTaskTime := 0 } }

end WorkerPool

/-!
## The two workers' `self.onmessage` handlers

The `try { ... } catch` around the computation is embedded by passing the
computation as an `Except String`-valued function: `.error e` stands for an
exception whose rendered message is `e` being thrown inside the `try`
block.  `WReply` is the message posted back.
-/

/-- An incoming `WorkerMessage` (the discriminated union of the protocol;
a worker can be sent any member of it). -/
inductive WMsg
  | generate (id : ℕ) (chunkX chunkY chunkZ : ℤ) (seed : ℚ) (config : GameConfig)
  | build (id : ℕ) (chunk : Chunk)
      (neighborChunks : Option (ℤ × ℤ × ℤ → Option Chunk))
  | chunkReady (id : ℕ) (chunk : Chunk)
  | meshReady (id : ℕ) (chunkKey : String) (meshData : MeshAcc)
  | error (id : ℕ) (e : String)

/-- `message.id`. -/
def WMsg.id : WMsg → ℕ
  | .generate i _ _ _ _ _ => i
  | .build i _ _ => i
  | .chunkReady i _ => i
  | .meshReady i _ _ => i
  | .error i _ => i

/-- `message.type`. -/
def WMsg.typeName : WMsg → String
  | .generate _ _ _ _ _ _ => "GENERATE_CHUNK"
  | .build _ _ _ => "BUILD_MESH"
  | .chunkReady _ _ => "CHUNK_READY"
  | .meshReady _ _ _ => "MESH_READY"
  | .error _ _ => "ERROR"

/-- A message a worker posts back to the main thread. -/
inductive WReply
  | chunkReady (id : ℕ) (chunk : Chunk)
  | meshReady (id : ℕ) (chunkKey : String) (meshData : MeshAcc)
  | error (id : ℕ) (e : String) (originalRequest : Option WMsg)

/-- `response.id`. -/
def WReply.id : WReply → ℕ
  | .chunkReady i _ => i
  | .meshReady i _ _ => i
  | .error i _ _ => i

/-- `self.onmessage` of the chunk-generator worker: run the generator on a
`GENERATE_CHUNK` request, reply `CHUNK_READY`; convert an exception or an
unrecognized tag into an `ERROR` reply carrying the request's id and the
request itself. -/
def chunkWorkerOnMessage
    (gen : ℤ → ℤ → ℤ → ℚ → GameConfig → Except String Chunk)
    (msg : WMsg) : WReply :=
  match msg with
  | .generate i cx cy cz seed config =>
    match gen cx cy cz seed config with
    | .ok chunk => .chunkReady i chunk
    | .error e => .error i e (some msg)
  | _ => .error msg.id ("Unknown message type: " ++ msg.typeName) (some msg)

/-- The non-throwing instantiation of the chunk worker's computation: build
a generator from the request's seed and config and run it. -/
def chunkWorkerGen (msin : ℚ → ℚ) :
    ℤ → ℤ → ℤ → ℚ → GameConfig → Except String Chunk :=
  fun cx cy cz seed config =>
    .ok (ChunkGenerator.generateChunk msin { seed := seed, config := config } cx cy cz)

/-- `self.onmessage` of the mesh-builder worker: run the mesh builder on a
`BUILD_MESH` request, reply `MESH_READY` with the chunk's coordinate key;
convert an exception or an unrecognized tag into an `ERROR` reply carrying
the request's id and the request itself. -/
def meshWorkerOnMessage
    (mb : Chunk → Option (ℤ × ℤ × ℤ → Option Chunk) → Except String MeshAcc)
    (msg : WMsg) : WReply :=
  match msg with
  | .build i chunk neighborChunks =>
    match mb chunk neighborChunks with
    | .ok meshData =>
      let chunkKey := toString chunk.position.1 ++ "," ++
        toString chunk.position.2.1 ++ "," ++ toString chunk.position.2.2
      .meshReady i chunkKey meshData
    | .error e => .error i e (some msg)
  | _ => .error msg.id ("Unknown message type: " ++ msg.typeName) (some msg)

/-- The non-throwing instantiation of the mesh worker's computation. -/
def meshWorkerMb :
    Chunk → Option (ℤ × ℤ × ℤ → Option Chunk) → Except String MeshAcc :=
  fun chunk neighborChunks => .ok (MeshBuilder.buildMesh chunk neighborChunks)

/-- Relative to a fixed base array `t`: every cell currently holding the
leaves code 5 or the air code 0 held air in `t`.  This is the invariant the
tree-placement passes preserve (both enums give AIR = 0, WOOD = 4,
LEAVES = 5). -/
def LeafSafe (t b : Blocks) : Prop :=
  ∀ j, (b j = 5 → t j = 0) ∧ (b j = 0 → t j = 0)

namespace WorkerPool

/-- The worker handle at position `idx` of pool `k`. -/
def workerAt (s : PoolState) (k : PoolKind) (idx : ℕ) : Option WorkerInfo :=
  (getPool s k)[idx]?

/-- The ids of the tasks sitting in the priority queue (the Queued
tasks). -/
def queuedIds (s : PoolState) : List ℕ :=
  s.taskQueue.map (·.id)

/-- Worker handle `w` currently holds the task with id `i`. -/
def holdsId (w : WorkerInfo) (i : ℕ) : Prop :=
  ∃ t, w.currentTask = some t ∧ t.id = i

/-- Some worker of some pool currently holds the task with id `i` (the
task is Dispatched). -/
def dispatchedId (s : PoolState) (i : ℕ) : Prop :=
  ∃ k idx w, workerAt s k idx = some w ∧ holdsId w i

/-- The task with id `i` is live: Queued or Dispatched. -/
def liveId (s : PoolState) (i : ℕ) : Prop :=
  i ∈ queuedIds s ∨ dispatchedId s i

/-- The scheduler tracking invariant that actually holds between
operations: every live task is in the pending table (so Queued tasks are
in the queue *and* the pending table at once); the queue and the worker
handles are disjoint and duplicate-free; live ids never exceed the id
counter; an idle worker holds no task. -/
def WF (s : PoolState) : Prop :=
  (∀ t ∈ s.taskQueue, (pendingGet s.pendingTasks t.id).isSome) ∧
  (∀ k idx w i, workerAt s k idx = some w → holdsId w i →
    (pendingGet s.pendingTasks i).isSome) ∧
  (∀ i, ¬(i ∈ queuedIds s ∧ dispatchedId s i)) ∧
  (queuedIds s).Nodup ∧
  (∀ k k' idx idx' w w' i, workerAt s k idx = some w →
    workerAt s k' idx' = some w' → holdsId w i → holdsId w' i →
    k = k' ∧ idx = idx') ∧
  (∀ i, liveId s i → i ≤ s.nextTaskId) ∧
  (∀ k idx w, workerAt s k idx = some w → w.busy = false → w.currentTask = none)

end WorkerPool

/-- Demonstration tasks and pool state for the scheduler theorems: one
chunk worker, busy on task 5, with task 7 queued (and both tracked in the
pending table, as the implementation keeps them). -/
def demoTask5 : WorkerTask :=
  { id := 5, priority := 1, timestamp := 0, kind := PoolKind.chunk }

/-- The queued demonstration task. -/
def demoTask7 : WorkerTask :=
  { id := 7, priority := 0, timestamp := 0, kind := PoolKind.chunk }

/-- The busy demonstration worker handle. -/
def demoWorker : WorkerInfo :=
  { busy := true, currentTask := some demoTask5, completedTasks := 0,
    totalTime := 0 }

/-- The demonstration pool state. -/
def demoPool : PoolState :=
  { chunkWorkers := [demoWorker], meshWorkers := [],
    taskQueue := [demoTask7],
    pendingTasks := [(7, demoTask7), (5, demoTask5)], nextTaskId := 7,
    stats := { totalWorkers := 1, activeWorkers := 1, queuedTasks := 1,
               completedTasks := 0, failedTasks := 0, averageTaskTime := 0 } }

/-!
## Helper lemmas
-/

/-- The fractional part `n - ⌊n⌋` lies in `[0, 1)` (this bracketing also
holds exactly for the IEEE-double computation the source performs). -/
theorem fract_bounds (q : ℚ) : 0 ≤ q - ⌊q⌋ ∧ q - ⌊q⌋ < 1 :=
  ⟨sub_nonneg.mpr (Int.floor_le q),
   sub_lt_iff_lt_add.mpr (by linarith [Int.lt_floor_add_one q])⟩

/-- The worker generator's noise lands in `[-1, 1)`. -/
theorem CG_noise2D_bounds (msin : ℚ → ℚ) (g : CG) (x y : ℚ) :
    -1 ≤ ChunkGenerator.noise2D msin g x y ∧
      ChunkGenerator.noise2D msin g x y < 1 := by
  unfold ChunkGenerator.noise2D
  obtain ⟨h0, h1⟩ := fract_bounds
    (msin (x * 12.9898 + y * 78.233 + g.seed * 37.719) * 43758.5453)
  constructor <;> [linarith; linarith]

/-- The inline generator's noise lands in `[-1, 1)`. -/
theorem World_noise2D_bounds (msin : ℚ → ℚ) (seed x y : ℚ) :
    -1 ≤ World.noise2D msin seed x y ∧ World.noise2D msin seed x y < 1 := by
  unfold World.noise2D
  obtain ⟨h0, h1⟩ := fract_bounds (msin (x * 12.9898 + y * 78.233 + seed) * 43758.5453)
  constructor <;> [linarith; linarith]

/-- The worker generator's `random` lands in `[0, 1)`. -/
theorem CG_random_bounds (msin : ℚ → ℚ) (g : CG) (s : ℚ) :
    0 ≤ ChunkGenerator.random msin g s ∧ ChunkGenerator.random msin g s < 1 := by
  unfold ChunkGenerator.random
  exact fract_bounds _

/-- The inline generator's `random` lands in `[0, 1)`. -/
theorem World_random_bounds (msin : ℚ → ℚ) (seed s : ℚ) :
    0 ≤ World.random msin seed s ∧ World.random msin seed s < 1 := by
  unfold World.random
  exact fract_bounds _

/-- For any nonnegative `flatness` the worker's terrain height stays in
`[16, 23]`. -/
theorem CG_height_bounds (msin : ℚ → ℚ) (g : CG) (h0 : 0 ≤ g.config.flatness)
    (x z : ℚ) :
    16 ≤ ChunkGenerator.getTerrainHeight msin g x z ∧
      ChunkGenerator.getTerrainHeight msin g x z ≤ 23 := by
  unfold ChunkGenerator.getTerrainHeight
  by_cases hf : g.config.flatness ≥ 1
  · simp [hf]
  · simp only [hf, if_false]
    obtain ⟨hn0, hn1⟩ := CG_noise2D_bounds msin g (x * 0.02) (z * 0.02)
    obtain ⟨ho0, ho1⟩ := CG_noise2D_bounds msin g (x * 0.02 * 2) (z * 0.02 * 2)
    push_neg at hf
    set n := ChunkGenerator.noise2D msin g (x * 0.02) (z * 0.02)
    set o := ChunkGenerator.noise2D msin g (x * 0.02 * 2) (z * 0.02 * 2)
    have hamp0 : (0 : ℚ) < 3 * (1 - g.config.flatness) := by linarith
    have hamp3 : 3 * (1 - g.config.flatness) ≤ 3 := by linarith
    have hsum : -(13/10) ≤ n + o * 0.3 ∧ n + o * 0.3 ≤ 13/10 := by
      constructor <;> nlinarith
    have hprod : -(39/10) ≤ (n + o * 0.3) * (3 * (1 - g.config.flatness)) ∧
        (n + o * 0.3) * (3 * (1 - g.config.flatness)) ≤ 39/10 := by
      constructor <;> nlinarith [hsum.1, hsum.2]
    constructor
    · exact Int.le_floor.mpr (by push_cast; linarith [hprod.1])
    · exact Int.lt_add_one_iff.mp
        (Int.floor_lt.mpr (by push_cast; linarith [hprod.2]))

/-- The inline generator's terrain height stays in `[16, 23]`. -/
theorem World_height_bounds (msin : ℚ → ℚ) (seed x z : ℚ) :
    16 ≤ World.getTerrainHeight msin seed x z ∧
      World.getTerrainHeight msin seed x z ≤ 23 := by
  unfold World.getTerrainHeight
  obtain ⟨hn0, hn1⟩ := World_noise2D_bounds msin seed (x * 0.02) (z * 0.02)
  obtain ⟨ho0, ho1⟩ := World_noise2D_bounds msin seed (x * 0.02 * 2) (z * 0.02 * 2)
  constructor
  · exact Int.le_floor.mpr (by push_cast; nlinarith)
  · exact Int.lt_add_one_iff.mp (Int.floor_lt.mpr (by push_cast; nlinarith))

/-- Folding a step that preserves a predicate preserves it. -/
theorem foldl_preserve {β α : Type} (P : β → Prop) (f : β → α → β) :
    ∀ (l : List α), (∀ c a, a ∈ l → P c → P (f c a)) → ∀ b, P b → P (l.foldl f b)
  | [], _, _, hb => hb
  | a :: l, h, b, hb =>
    foldl_preserve P f l (fun c a' ha' hc => h c a' (List.mem_cons_of_mem _ ha') hc)
      (f b a) (h b a (List.mem_cons_self _ _) hb)

/-- A fold whose steps all leave index `j` alone leaves index `j` alone. -/
theorem foldl_keepAt {α : Type} (f : Blocks → α → Blocks) (j : ℤ) :
    ∀ (l : List α), (∀ c a, a ∈ l → f c a j = c j) → ∀ b, (l.foldl f b) j = b j
  | [], _, _ => rfl
  | a :: l, h, b => by
    rw [List.foldl_cons,
      foldl_keepAt f j l (fun c a' ha' => h c a' (List.mem_cons_of_mem _ ha')) (f b a),
      h b a (List.mem_cons_self _ _)]

/-- A fold whose step at `t` writes the value `v` to index `j` and whose
other steps leave `j` alone ends with `v` at `j` (the list visits `t`
exactly once). -/
theorem foldl_hitAt {α : Type} [DecidableEq α] (f : Blocks → α → Blocks) (j : ℤ)
    (v : ℕ) :
    ∀ (l : List α) (t : α), t ∈ l → l.Nodup →
      (∀ c a, a ∈ l → a ≠ t → f c a j = c j) →
      (∀ c, f c t j = v) → ∀ b, (l.foldl f b) j = v := by
  intro l
  induction l with
  | nil => intro t ht; cases ht
  | cons a l ih =>
    intro t ht hnd hother hset b
    rw [List.foldl_cons]
    rcases List.mem_cons.mp ht with rfl | htl
    · have : ∀ a' ∈ l, a' ≠ t := fun a' ha' => by
        intro rfl_eq; subst rfl_eq
        exact (List.nodup_cons.mp hnd).1 ha'
      rw [foldl_keepAt f j l
        (fun c a' ha' => hother c a' (List.mem_cons_of_mem _ ha') (this a' ha'))
        (f b t), hset b]
    · exact ih t htl (List.nodup_cons.mp hnd).2
        (fun c a' ha' => hother c a' (List.mem_cons_of_mem _ ha'))
        hset (f b a)

/-- Folding a step that fixes every state is the identity. -/
theorem foldl_fix {β α : Type} (f : β → α → β) :
    ∀ (l : List α), (∀ c a, a ∈ l → f c a = c) → ∀ b, l.foldl f b = b
  | [], _, _ => rfl
  | a :: l, h, b => by
    rw [List.foldl_cons, h b a (List.mem_cons_self _ _),
      foldl_fix f l (fun c a' ha' => h c a' (List.mem_cons_of_mem _ ha')) b]

/-- A byte write of a value `≤ 3` keeps every cell `≤ 3`. -/
theorem writeBlock_le (b : Blocks) (i : ℤ) (v : ℕ) (hv : v ≤ 3)
    (hb : ∀ j, b j ≤ 3) : ∀ j, writeBlock b i v j ≤ 3 := by
  intro j
  unfold writeBlock
  split
  · omega
  · exact hb j

/-- A terrain cell written by the worker generator is one of
air/grass/dirt/stone, i.e. a code `≤ 3`. -/
theorem CG_terrainWrite_le (height worldY : ℤ) (b : Blocks) (index : ℤ)
    (hb : ∀ j, b j ≤ 3) : ∀ j, ChunkGenerator.terrainWrite height worldY b index j ≤ 3 := by
  unfold ChunkGenerator.terrainWrite
  split_ifs <;> exact writeBlock_le _ _ _ (by decide) hb

/-- Every cell of the worker generator's terrain pass is a code `≤ 3`. -/
theorem CG_generateTerrain_le (msin : ℚ → ℚ) (g : CG) (cx cy cz : ℤ)
    (b0 : Blocks) (hb0 : ∀ j, b0 j ≤ 3) :
    ∀ j, ChunkGenerator.generateTerrain msin g cx cy cz b0 j ≤ 3 := by
  unfold ChunkGenerator.generateTerrain
  refine foldl_preserve (fun b : Blocks => ∀ j, b j ≤ 3) _ _ ?_ _ hb0
  intro c a _ hc
  refine foldl_preserve (fun b : Blocks => ∀ j, b j ≤ 3) _ _ ?_ _ hc
  intro c' a' _ hc'
  refine foldl_preserve (fun b : Blocks => ∀ j, b j ≤ 3) _ _ ?_ _ hc'
  intro c'' a'' _ hc''
  exact CG_terrainWrite_le _ _ _ _ hc''

/-- With `treeFrequency = 0` the worker generator's per-site check
`treeNoise > 1 - treeFrequency * 2` can never pass (noise is `< 1`), so a
site changes nothing. -/
theorem CG_treeSite_id (msin : ℚ → ℚ) (g : CG) (htf : g.config.treeFrequency = 0)
    (cx cy cz : ℤ) (bz : Blocks) (x z : ℤ) :
    ChunkGenerator.treeSite msin g cx cy cz bz x z = bz := by
  have h := (CG_noise2D_bounds msin g (((cx * CHUNK_SIZE + x : ℤ) : ℚ) * 0.1)
    (((cz * CHUNK_SIZE + z : ℤ) : ℚ) * 0.1)).2
  simp only [ChunkGenerator.treeSite, htf]
  rw [if_neg (by push_neg; linarith)]

/-- With `treeFrequency = 0` the worker generator's tree pass is the
identity. -/
theorem CG_generateTrees_id (msin : ℚ → ℚ) (g : CG)
    (htf : g.config.treeFrequency = 0) (ch : Blocks) (cx cy cz : ℤ) :
    ChunkGenerator.generateTrees msin g ch cx cy cz = ch := by
  unfold ChunkGenerator.generateTrees
  refine foldl_fix _ _ ?_ ch
  intro c a _
  refine foldl_fix _ _ ?_ c
  intro c' a' _
  exact CG_treeSite_id msin g htf cx cy cz c' a a'

/-- C4: with seed 42, `flatness = 1.0` and `treeFrequency = 0`, the
generator's terrain height is the constant 20 at every world column (so
every generated chunk has uniform column height), and every cell of every
generated chunk is a non-wood, non-leaves block. -/
theorem C4_flat_config_uniform_height_and_no_trees (msin : ℚ → ℚ)
    (chunkX chunkY chunkZ : ℤ) :
    (∀ x z : ℚ,
      ChunkGenerator.getTerrainHeight msin ⟨42, ⟨1, 0⟩⟩ x z = 20) ∧
    (∀ j : ℤ,
      (ChunkGenerator.generateChunk msin ⟨42, ⟨1, 0⟩⟩ chunkX chunkY chunkZ).blocks j
          ≠ WorkerBlock.WOOD ∧
      (ChunkGenerator.generateChunk msin ⟨42, ⟨1, 0⟩⟩ chunkX chunkY chunkZ).blocks j
          ≠ WorkerBlock.LEAVES) := by
  constructor
  · intro x z
    unfold ChunkGenerator.getTerrainHeight
    norm_num
  · intro j
    have hterr := CG_generateTerrain_le msin ⟨42, ⟨1, 0⟩⟩ chunkX chunkY chunkZ
      (fun _ => 0) (fun _ => by norm_num)
    unfold ChunkGenerator.generateChunk
    simp only
    split_ifs with hgate
    · rw [CG_generateTrees_id msin _ rfl]
      have := hterr j
      unfold WorkerBlock.WOOD WorkerBlock.LEAVES
      omega
    · have := hterr j
      unfold WorkerBlock.WOOD WorkerBlock.LEAVES
      omega

/-- A byte write leaves other indices alone. -/
theorem writeBlock_ne (b : Blocks) (i : ℤ) (v : ℕ) (j : ℤ) (h : j ≠ i) :
    writeBlock b i v j = b j := by
  unfold writeBlock
  simp [h]

/-- The worker terrain step leaves other indices alone. -/
theorem CG_terrainWrite_ne (height worldY : ℤ) (b : Blocks) (i j : ℤ)
    (h : j ≠ i) : ChunkGenerator.terrainWrite height worldY b i j = b j := by
  unfold ChunkGenerator.terrainWrite
  split_ifs <;> exact writeBlock_ne b i _ j h

/-- The inline terrain step leaves other indices alone. -/
theorem World_terrainWrite_ne (height worldY : ℤ) (b : Blocks) (i j : ℤ)
    (h : j ≠ i) : World.terrainWrite height worldY b i j = b j := by
  unfold World.terrainWrite
  split_ifs <;> exact writeBlock_ne b i _ j h

/-- In chunk `(0, -1, 0)` the worker generator writes stone (worker code 3)
at index 0: the cell is far below every possible terrain height. -/
theorem CG_stone_at_origin (msin : ℚ → ℚ) (s : ℚ) :
    (ChunkGenerator.generateChunk msin ⟨s, ⟨0, 0⟩⟩ 0 (-1) 0).blocks 0 =
      WorkerBlock.STONE := by
  unfold ChunkGenerator.generateChunk
  dsimp only
  rw [if_neg (by decide)]
  unfold ChunkGenerator.generateTerrain
  refine foldl_hitAt _ 0 WorkerBlock.STONE (List.range 16) 0
    (List.mem_range.mpr (by norm_num)) (List.nodup_range 16) ?_ ?_ _
  · intro c a ha hne
    refine foldl_keepAt _ 0 _ ?_ c
    intro c' a' ha'
    refine foldl_keepAt _ 0 _ ?_ c'
    intro c'' a'' ha''
    refine CG_terrainWrite_ne _ _ _ _ _ ?_
    have h1 : a < 16 := List.mem_range.mp ha
    have h2 : a' < 16 := List.mem_range.mp ha'
    have h3 : a'' < 16 := List.mem_range.mp ha''
    omega
  · intro c
    refine foldl_hitAt _ 0 WorkerBlock.STONE (List.range 16) 0
      (List.mem_range.mpr (by norm_num)) (List.nodup_range 16) ?_ ?_ c
    · intro c' a' ha' hne'
      refine foldl_keepAt _ 0 _ ?_ c'
      intro c'' a'' ha''
      refine CG_terrainWrite_ne _ _ _ _ _ ?_
      have h2 : a' < 16 := List.mem_range.mp ha'
      have h3 : a'' < 16 := List.mem_range.mp ha''
      omega
    · intro c'
      refine foldl_hitAt _ 0 WorkerBlock.STONE (List.range 16) 0
        (List.mem_range.mpr (by norm_num)) (List.nodup_range 16) ?_ ?_ c'
      · intro c'' a'' ha'' hne''
        refine CG_terrainWrite_ne _ _ _ _ _ ?_
        have h3 : a'' < 16 := List.mem_range.mp ha''
        omega
      · intro c''
        have hh := (CG_height_bounds msin ⟨s, ⟨0, 0⟩⟩ (by norm_num)
          (((0 * CHUNK_SIZE + (0 : ℕ) : ℤ) : ℚ)) (((0 * CHUNK_SIZE + (0 : ℕ) : ℤ) : ℚ))).1
        unfold ChunkGenerator.terrainWrite
        rw [if_pos (by unfold CHUNK_SIZE at hh ⊢; push_cast at hh ⊢; omega)]
        unfold writeBlock
        rw [if_pos ⟨by norm_num, by norm_num, rfl⟩]
        decide

/-- In chunk `(0, -1, 0)` the inline generator's tree pass changes nothing:
the chunk lies entirely below every possible terrain height. -/
theorem World_trees_id_below (msin : ℚ → ℚ) (seed : ℚ) (ch : Blocks) :
    World.generateTreesBlocks msin seed ch 0 (-1) 0 = ch := by
  unfold World.generateTreesBlocks
  dsimp only
  split_ifs with hr
  · refine foldl_fix _ (List.range 16) ?_ ch
    intro c a ha
    have h1 : a < 16 := List.mem_range.mp ha
    have hg := (World_height_bounds msin seed
      (((0 * CHUNK_SIZE + (⌊World.random msin seed ((0 * 100 : ℤ) : ℚ) * 12⌋ + 2) : ℤ) : ℚ))
      (((0 * CHUNK_SIZE + (⌊World.random msin seed ((0 * 100 : ℤ) : ℚ) * 12⌋ + 2) : ℤ) : ℚ))).1
    rw [if_neg]
    push_neg
    intro hcon
    exfalso
    unfold CHUNK_SIZE at hcon hg
    omega
  · rfl

/-- In chunk `(0, -1, 0)` the inline generator writes stone (inline code 1)
at index 0. -/
theorem World_stone_at_origin (msin : ℚ → ℚ) (seed : ℚ) :
    (World.generateChunk msin (World.new seed) 0 (-1) 0).1.blocks 0 =
      MainBlock.STONE := by
  unfold World.generateChunk World.new
  simp only
  rw [World_trees_id_below]
  unfold World.generateTerrainBlocks
  refine foldl_hitAt _ 0 MainBlock.STONE (List.range 16) 0
    (List.mem_range.mpr (by norm_num)) (List.nodup_range 16) ?_ ?_ _
  · intro c a ha hne
    refine foldl_keepAt _ 0 _ ?_ c
    intro c' a' ha'
    refine foldl_keepAt _ 0 _ ?_ c'
    intro c'' a'' ha''
    refine World_terrainWrite_ne _ _ _ _ _ ?_
    have h1 : a < 16 := List.mem_range.mp ha
    have h2 : a' < 16 := List.mem_range.mp ha'
    have h3 : a'' < 16 := List.mem_range.mp ha''
    omega
  · intro c
    refine foldl_hitAt _ 0 MainBlock.STONE (List.range 16) 0
      (List.mem_range.mpr (by norm_num)) (List.nodup_range 16) ?_ ?_ c
    · intro c' a' ha' hne'
      refine foldl_keepAt _ 0 _ ?_ c'
      intro c'' a'' ha''
      refine World_terrainWrite_ne _ _ _ _ _ ?_
      have h2 : a' < 16 := List.mem_range.mp ha'
      have h3 : a'' < 16 := List.mem_range.mp ha''
      omega
    · intro c'
      refine foldl_hitAt _ 0 MainBlock.STONE (List.range 16) 0
        (List.mem_range.mpr (by norm_num)) (List.nodup_range 16) ?_ ?_ c'
      · intro c'' a'' ha'' hne''
        refine World_terrainWrite_ne _ _ _ _ _ ?_
        have h3 : a'' < 16 := List.mem_range.mp ha''
        omega
      · intro c''
        have hh := (World_height_bounds msin seed
          (((0 * CHUNK_SIZE + (0 : ℕ) : ℤ) : ℚ)) (((0 * CHUNK_SIZE + (0 : ℕ) : ℤ) : ℚ))).1
        unfold World.terrainWrite
        rw [if_pos (by unfold CHUNK_SIZE at hh ⊢; push_cast at hh ⊢; omega)]
        unfold writeBlock
        rw [if_pos ⟨by norm_num, by norm_num, rfl⟩]
        decide

/-- C1: the inline generator (`World.generateChunk`) and the generation
worker (`ChunkGenerator.generateChunk`) do *not* produce byte-identical
block arrays.  For every seed (and every `Math.sin`), at chunk
`(0, -1, 0)` with config `{flatness: 0, treeFrequency: 0}`, index 0 holds
the inline stone code 1 on the inline path but the worker stone code 3 on
the worker path (the two files declare different block enums), so the
arrays differ at byte 0. -/
theorem C1_generators_not_byte_identical (msin : ℚ → ℚ) (seed : ℚ) :
    (World.generateChunk msin (World.new seed) 0 (-1) 0).1.blocks 0 =
        MainBlock.STONE ∧
    (ChunkGenerator.generateChunk msin ⟨seed, ⟨0, 0⟩⟩ 0 (-1) 0).blocks 0 =
        WorkerBlock.STONE ∧
    (World.generateChunk msin (World.new seed) 0 (-1) 0).1.blocks 0 ≠
      (ChunkGenerator.generateChunk msin ⟨seed, ⟨0, 0⟩⟩ 0 (-1) 0).blocks 0 := by
  refine ⟨World_stone_at_origin msin seed, CG_stone_at_origin msin seed, ?_⟩
  rw [World_stone_at_origin msin seed, CG_stone_at_origin msin seed]
  decide

/-- `LeafSafe` holds reflexively over a leaves-free base. -/
theorem LeafSafe_refl (t : Blocks) (h : ∀ j, t j ≠ 5) : LeafSafe t t := by
  intro j
  exact ⟨fun h5 => absurd h5 (h j), fun h0 => h0⟩

/-- Writing a byte that is neither leaves nor air preserves `LeafSafe`. -/
theorem LeafSafe_write_nonleaf {t b : Blocks} (hP : LeafSafe t b) (i : ℤ)
    (v : ℕ) (h5 : v % 256 ≠ 5) (h0 : v % 256 ≠ 0) :
    LeafSafe t (writeBlock b i v) := by
  intro j
  unfold writeBlock
  split
  · exact ⟨fun h => absurd h h5, fun h => absurd h h0⟩
  · exact hP j

/-- Writing the leaves code into a cell that currently holds air preserves
`LeafSafe`. -/
theorem LeafSafe_write_leaf {t b : Blocks} (hP : LeafSafe t b) (i : ℤ)
    (hair : b i = 0) : LeafSafe t (writeBlock b i 5) := by
  intro j
  unfold writeBlock
  split
  · rename_i hc
    refine ⟨fun _ => ?_, fun h => by omega⟩
    have := (hP i).2 hair
    rw [hc.2.2]
    exact this
  · exact hP j

/-- `ChunkGenerator.placeTree` preserves `LeafSafe`: its trunk writes wood
and its leaf writes are guarded by an air check. -/
theorem CG_placeTree_leafSafe (msin : ℚ → ℚ) (g : CG) {t b : Blocks}
    (hP : LeafSafe t b) (lx ly lz cx cy cz : ℤ) :
    LeafSafe t (ChunkGenerator.placeTree msin g b lx ly lz cx cy cz) := by
  unfold ChunkGenerator.placeTree ChunkGenerator.placeLeaves
    ChunkGenerator.placeTrunk leafWrite
  dsimp only
  refine foldl_preserve (LeafSafe t) _ _ ?_ _ ?_
  · intro c a _ hc
    dsimp only
    split_ifs with h1 h2
    · exact hc
    all_goals
      refine foldl_preserve (LeafSafe t) _ _ ?_ _ hc
    all_goals
      intro c' a' _ hc'
      refine foldl_preserve (LeafSafe t) _ _ ?_ _ hc'
      intro c'' a'' _ hc''
      dsimp only
      split_ifs <;> first
        | exact LeafSafe_write_leaf hc'' _ (by assumption)
        | exact hc''
  · refine foldl_preserve (LeafSafe t) _ _ ?_ _ hP
    intro c a _ hc
    dsimp only
    split_ifs with h1
    · exact LeafSafe_write_nonleaf hc _ _ (by decide) (by decide)
    · exact hc

/-- `ChunkGenerator.generateTrees` preserves `LeafSafe`. -/
theorem CG_generateTrees_leafSafe (msin : ℚ → ℚ) (g : CG) {t b : Blocks}
    (hP : LeafSafe t b) (cx cy cz : ℤ) :
    LeafSafe t (ChunkGenerator.generateTrees msin g b cx cy cz) := by
  unfold ChunkGenerator.generateTrees
  refine foldl_preserve (LeafSafe t) _ _ ?_ _ hP
  intro c a _ hc
  refine foldl_preserve (LeafSafe t) _ _ ?_ _ hc
  intro c' a' _ hc'
  unfold ChunkGenerator.treeSite
  dsimp only
  split_ifs with h1
  · exact CG_placeTree_leafSafe msin g hc' _ _ _ _ _ _
  · exact hc'

/-- Every cell of the inline generator's terrain pass is a code `≤ 3`. -/
theorem World_generateTerrain_le (msin : ℚ → ℚ) (seed : ℚ) (cx cy cz : ℤ)
    (b0 : Blocks) (hb0 : ∀ j, b0 j ≤ 3) :
    ∀ j, World.generateTerrainBlocks msin seed cx cy cz b0 j ≤ 3 := by
  unfold World.generateTerrainBlocks
  refine foldl_preserve (fun b : Blocks => ∀ j, b j ≤ 3) _ _ ?_ _ hb0
  intro c a _ hc
  refine foldl_preserve (fun b : Blocks => ∀ j, b j ≤ 3) _ _ ?_ _ hc
  intro c' a' _ hc'
  refine foldl_preserve (fun b : Blocks => ∀ j, b j ≤ 3) _ _ ?_ _ hc'
  intro c'' a'' _ hc''
  unfold World.terrainWrite
  split_ifs <;> exact writeBlock_le _ _ _ (by decide) hc''

/-- The inline `World.generateTrees` pass preserves `LeafSafe`. -/
theorem World_generateTrees_leafSafe (msin : ℚ → ℚ) (seed : ℚ) {t b : Blocks}
    (hP : LeafSafe t b) (cx cy cz : ℤ) :
    LeafSafe t (World.generateTreesBlocks msin seed b cx cy cz) := by
  unfold World.generateTreesBlocks World.leafRing leafWrite
  dsimp only
  split_ifs with hr
  · refine foldl_preserve (LeafSafe t) _ _ ?_ _ hP
    intro c a _ hc
    dsimp only
    split_ifs with h1 h2 h3 h4
    · -- trunk written, then the leaf rings
      refine foldl_preserve (LeafSafe t) _ _ ?_ _
        (LeafSafe_write_nonleaf hc _ _ (by decide) (by decide))
      intro c' a' _ hc'
      refine foldl_preserve (LeafSafe t) _ _ ?_ _ hc'
      intro c'' a'' _ hc''
      dsimp only
      split_ifs <;> first
        | exact LeafSafe_write_leaf hc'' _ (by assumption)
        | exact hc''
    · -- no trunk write in range, leaf rings only
      refine foldl_preserve (LeafSafe t) _ _ ?_ _ hc
      intro c' a' _ hc'
      refine foldl_preserve (LeafSafe t) _ _ ?_ _ hc'
      intro c'' a'' _ hc''
      dsimp only
      split_ifs <;> first
        | exact LeafSafe_write_leaf hc'' _ (by assumption)
        | exact hc''
    · exact LeafSafe_write_nonleaf hc _ _ (by decide) (by decide)
    · exact hc
    · exact hc
  · exact hP

/-- The guarded leaf write never changes a non-air cell: when the target
holds anything but air the write is skipped, and a write that fires only
touches its (air) target. -/
theorem leafWrite_keep (b : Blocks) (idx j : ℤ) (h : b j ≠ 0) :
    leafWrite b idx j = b j := by
  unfold leafWrite
  by_cases h0 : b idx = 0
  · rw [if_pos h0]
    unfold writeBlock
    split_ifs with hg
    · exact absurd (by rw [hg.2.2]; exact h0) h
    · rfl
  · rw [if_neg h0]

/-- When the guarded leaf write changes anything at all, the changed cell
is its target, that cell held air, and it now holds the leaves code. -/
theorem leafWrite_change (b : Blocks) (idx j : ℤ)
    (h : leafWrite b idx j ≠ b j) :
    j = idx ∧ b idx = 0 ∧ leafWrite b idx j = 5 := by
  unfold leafWrite at h ⊢
  by_cases h0 : b idx = 0
  · rw [if_pos h0] at h ⊢
    unfold writeBlock at h ⊢
    split_ifs at h ⊢ with hg
    · exact ⟨hg.2.2, h0, rfl⟩
    · exact absurd rfl h
  · rw [if_neg h0] at h
    exact absurd rfl h

/-- The worker's whole leaf phase never changes a non-air cell — in
particular it never clobbers the trunk wood `placeTree` wrote just before
it. -/
theorem CG_placeLeaves_keep (b1 : Blocks) (lx lz ys j : ℤ)
    (h : b1 j ≠ 0) :
    ChunkGenerator.placeLeaves b1 lx lz ys j = b1 j := by
  unfold ChunkGenerator.placeLeaves
  refine foldl_preserve (fun bb : Blocks => bb j = b1 j) _ _ ?_ _ rfl
  intro c a _ hc
  dsimp only
  split_ifs with h1 h2
  · exact hc
  all_goals
    refine foldl_preserve (fun bb : Blocks => bb j = b1 j) _ _ ?_ _ hc
  all_goals
    intro c' a' _ hc'
    refine foldl_preserve (fun bb : Blocks => bb j = b1 j) _ _ ?_ _ hc'
    intro c'' a'' _ hc''
    dsimp only
    split_ifs <;>
      first
      | exact hc''
      | (rw [leafWrite_keep _ _ j (fun he => h (hc''.symm.trans he))]
         exact hc'')

/-- Each leaf ring of the inline generator never changes a non-air cell —
in particular it never clobbers the trunk wood written on the same
layer. -/
theorem World_leafRing_keep (b1 : Blocks) (tx tz ly j : ℤ)
    (h : b1 j ≠ 0) :
    World.leafRing b1 tx tz ly j = b1 j := by
  unfold World.leafRing
  refine foldl_preserve (fun bb : Blocks => bb j = b1 j) _ _ ?_ _ rfl
  intro c a _ hc
  refine foldl_preserve (fun bb : Blocks => bb j = b1 j) _ _ ?_ _ hc
  intro c' a' _ hc'
  dsimp only
  split_ifs <;>
    first
    | exact hc'
    | (rw [leafWrite_keep _ _ j (fun he => h (hc'.symm.trans he))]
       exact hc')

/-- Writing wood keeps a wood cell wood. -/
theorem writeBlock_wood (c : Blocks) (i j : ℤ) (hc : c j = 4) :
    writeBlock c i 4 j = 4 := by
  unfold writeBlock
  split_ifs <;> [rfl; exact hc]

/-- The worker's trunk loop keeps a wood cell wood. -/
theorem CG_placeTrunk_wood (ch : Blocks) (lx ly lz th j : ℤ)
    (hch : ch j = 4) :
    ChunkGenerator.placeTrunk ch lx ly lz th j = 4 := by
  unfold ChunkGenerator.placeTrunk
  refine foldl_preserve (fun bb : Blocks => bb j = 4) _ _ ?_ _ hch
  intro c a _ hc
  dsimp only
  split_ifs with h1
  · exact writeBlock_wood c _ j hc
  · exact hc

/-- Wood persists through the worker's whole `placeTree`. -/
theorem CG_placeTree_wood (msin : ℚ → ℚ) (g : CG) (ch : Blocks)
    (lx ly lz cx cy cz j : ℤ) (hch : ch j = 4) :
    ChunkGenerator.placeTree msin g ch lx ly lz cx cy cz j = 4 := by
  unfold ChunkGenerator.placeTree
  have hleaves : ∀ (b1 : Blocks) (lx2 lz2 ys : ℤ), b1 j = 4 →
      ChunkGenerator.placeLeaves b1 lx2 lz2 ys j = 4 := by
    intro b1 lx2 lz2 ys hb1
    rw [CG_placeLeaves_keep _ _ _ _ _ (by rw [hb1]; norm_num)]
    exact hb1
  exact hleaves _ _ _ _ (CG_placeTrunk_wood ch lx ly lz _ j hch)

/-- Wood persists through the worker's whole tree pass. -/
theorem CG_generateTrees_wood (msin : ℚ → ℚ) (g : CG) (ch : Blocks)
    (cx cy cz j : ℤ) (hch : ch j = 4) :
    ChunkGenerator.generateTrees msin g ch cx cy cz j = 4 := by
  unfold ChunkGenerator.generateTrees
  refine foldl_preserve (fun bb : Blocks => bb j = 4) _ _ ?_ _ hch
  intro c a _ hc
  refine foldl_preserve (fun bb : Blocks => bb j = 4) _ _ ?_ _ hc
  intro c' a' _ hc'
  unfold ChunkGenerator.treeSite
  dsimp only
  split_ifs with h1
  · exact CG_placeTree_wood msin g c' _ _ _ _ _ _ j hc'
  · exact hc'

/-- Wood persists through the inline generator's whole tree pass. -/
theorem World_generateTrees_wood (msin : ℚ → ℚ) (seed : ℚ) (ch : Blocks)
    (cx cy cz j : ℤ) (hch : ch j = 4) :
    World.generateTreesBlocks msin seed ch cx cy cz j = 4 := by
  have hring : ∀ (b1 : Blocks) (tx tz ly : ℤ), b1 j = 4 →
      World.leafRing b1 tx tz ly j = 4 := by
    intro b1 tx tz ly hb1
    rw [World_leafRing_keep _ _ _ _ _ (by rw [hb1]; norm_num)]
    exact hb1
  unfold World.generateTreesBlocks
  dsimp only
  split_ifs with hr
  · refine foldl_preserve (fun bb : Blocks => bb j = 4) _ _ ?_ _ hch
    intro c a _ hc
    dsimp only
    split_ifs <;>
      first
      | exact hc
      | exact writeBlock_wood c _ j hc
      | exact hring _ _ _ _ hc
      | exact hring _ _ _ _ (writeBlock_wood c _ j hc)
  · exact hch

/-- C7: placing leaves never overwrites a non-air block, write by write,
in both generators.  (1) The shared guarded leaf write changes no non-air
cell; (2) when it changes a cell at all, that cell is its target, the
target held air, and it now holds the leaves code; (3) the worker's whole
leaf phase (run after its trunk loop inside `placeTree`) changes no
non-air cell — so it never clobbers the trunk wood just placed; (4) the
same for each leaf ring of the inline generator (run after the layer's
trunk write); (5)–(6) a wood cell survives both complete tree passes
unchanged; (7)–(8) consequently any cell holding leaves after either full
pass over the terrain held air right after the terrain pass. -/
theorem C7_leaves_never_overwrite :
    (∀ (b : Blocks) (idx j : ℤ), b j ≠ WorkerBlock.AIR →
      leafWrite b idx j = b j) ∧
    (∀ (b : Blocks) (idx j : ℤ), leafWrite b idx j ≠ b j →
      j = idx ∧ b idx = WorkerBlock.AIR ∧
        leafWrite b idx j = WorkerBlock.LEAVES) ∧
    (∀ (b1 : Blocks) (lx lz ys j : ℤ), b1 j ≠ WorkerBlock.AIR →
      ChunkGenerator.placeLeaves b1 lx lz ys j = b1 j) ∧
    (∀ (b1 : Blocks) (tx tz ly j : ℤ), b1 j ≠ MainBlock.AIR →
      World.leafRing b1 tx tz ly j = b1 j) ∧
    (∀ (msin : ℚ → ℚ) (g : CG) (ch : Blocks) (cx cy cz j : ℤ),
      ch j = WorkerBlock.WOOD →
      ChunkGenerator.generateTrees msin g ch cx cy cz j = WorkerBlock.WOOD) ∧
    (∀ (msin : ℚ → ℚ) (seed : ℚ) (ch : Blocks) (cx cy cz j : ℤ),
      ch j = MainBlock.WOOD →
      World.generateTreesBlocks msin seed ch cx cy cz j = MainBlock.WOOD) ∧
    (∀ (msin : ℚ → ℚ) (g : CG) (cx cy cz j : ℤ),
      ChunkGenerator.generateTrees msin g
          (ChunkGenerator.generateTerrain msin g cx cy cz (fun _ => 0)) cx cy cz j
          ≠ WorkerBlock.LEAVES ∨
        ChunkGenerator.generateTerrain msin g cx cy cz (fun _ => 0) j
          = WorkerBlock.AIR) ∧
    (∀ (msin : ℚ → ℚ) (seed : ℚ) (cx cy cz j : ℤ),
      World.generateTreesBlocks msin seed
          (World.generateTerrainBlocks msin seed cx cy cz (fun _ => 0)) cx cy cz j
          ≠ MainBlock.LEAVES ∨
        World.generateTerrainBlocks msin seed cx cy cz (fun _ => 0) j
          = MainBlock.AIR) := by
  refine ⟨leafWrite_keep, leafWrite_change, CG_placeLeaves_keep,
    World_leafRing_keep, ?_, ?_, ?_, ?_⟩
  · intro msin g ch cx cy cz j hch
    exact CG_generateTrees_wood msin g ch cx cy cz j hch
  · intro msin seed ch cx cy cz j hch
    exact World_generateTrees_wood msin seed ch cx cy cz j hch
  · intro msin g cx cy cz j
    by_cases h5 : ChunkGenerator.generateTrees msin g
        (ChunkGenerator.generateTerrain msin g cx cy cz (fun _ => 0)) cx cy cz j
        = WorkerBlock.LEAVES
    · right
      have hterr := CG_generateTerrain_le msin g cx cy cz (fun _ => 0) (fun _ => by norm_num)
      have hsafe := CG_generateTrees_leafSafe msin g
        (LeafSafe_refl (ChunkGenerator.generateTerrain msin g cx cy cz (fun _ => 0))
          (fun j => by have := hterr j; omega)) cx cy cz
      exact (hsafe j).1 h5
    · exact Or.inl h5
  · intro msin seed cx cy cz j
    by_cases h5 : World.generateTreesBlocks msin seed
        (World.generateTerrainBlocks msin seed cx cy cz (fun _ => 0)) cx cy cz j
        = MainBlock.LEAVES
    · right
      have hterr := World_generateTerrain_le msin seed cx cy cz (fun _ => 0) (fun _ => by norm_num)
      have hsafe := World_generateTrees_leafSafe msin seed
        (LeafSafe_refl (World.generateTerrainBlocks msin seed cx cy cz (fun _ => 0))
          (fun j => by have := hterr j; omega)) cx cy cz
      exact (hsafe j).1 h5
    · exact Or.inl h5

/-- C7 witness: over the base holding wood at index 0, a leaf write aimed
at index 0 is skipped; over the all-air base a leaf write fires and puts
leaves at its target; the worker leaf phase, the inline leaf ring and both
full tree passes all keep the wood cell intact. -/
theorem C7_leaves_never_overwrite_witness :
    leafWrite (writeBlock (fun _ => 0) 0 4) 0 0 =
      writeBlock (fun _ => 0) 0 4 0 ∧
    ((0 : ℤ) = 0 ∧ (0 : ℕ) = WorkerBlock.AIR ∧
      leafWrite (fun _ => 0) 0 0 = WorkerBlock.LEAVES) ∧
    ChunkGenerator.placeLeaves (writeBlock (fun _ => 0) 0 4) 0 0 14 0 =
      writeBlock (fun _ => 0) 0 4 0 ∧
    World.leafRing (writeBlock (fun _ => 0) 0 4) 2 2 0 0 =
      writeBlock (fun _ => 0) 0 4 0 ∧
    ChunkGenerator.generateTrees (fun _ => 0) ⟨0, ⟨0, 0⟩⟩
      (writeBlock (fun _ => 0) 0 4) 0 0 0 0 = WorkerBlock.WOOD ∧
    World.generateTreesBlocks (fun _ => 0) 0
      (writeBlock (fun _ => 0) 0 4) 0 0 0 0 = MainBlock.WOOD :=
  ⟨C7_leaves_never_overwrite.1 _ 0 0 (by decide),
   C7_leaves_never_overwrite.2.1 (fun _ => 0) 0 0 (by decide),
   C7_leaves_never_overwrite.2.2.1 _ 0 0 14 0 (by decide),
   C7_leaves_never_overwrite.2.2.2.1 _ 2 2 0 0 (by decide),
   C7_leaves_never_overwrite.2.2.2.2.1 (fun _ => 0) ⟨0, ⟨0, 0⟩⟩ _ 0 0 0 0 (by decide),
   C7_leaves_never_overwrite.2.2.2.2.2.1 (fun _ => 0) 0 _ 0 0 0 0 (by decide)⟩


/-- JavaScript's `((v % 16) + 16) % 16` (truncating `%`) lands in
`[0, 16)`. -/
theorem localCoord_bounds (a : ℤ) :
    0 ≤ World.localCoord a ∧ World.localCoord a < 16 := by
  unfold World.localCoord
  have hr : -16 < a.tmod 16 ∧ a.tmod 16 < 16 := by
    cases a with
    | ofNat m =>
      have h : (Int.ofNat m).tmod 16 = ((m % 16 : ℕ) : ℤ) := rfl
      rw [h]
      omega
    | negSucc m =>
      have h : (Int.negSucc m).tmod 16 = -(((m + 1) % 16 : ℕ) : ℤ) := rfl
      rw [h]
      omega
  rw [Int.tmod_eq_emod (by omega) (by norm_num)]
  exact ⟨Int.emod_nonneg _ (by norm_num), Int.emod_lt_of_pos _ (by norm_num)⟩

/-- C3: for every world state, every integer world coordinate (negative
included) and every block-type code, `setBlock` then `getBlock` at the same
coordinate returns the written code. -/
theorem C3_setBlock_getBlock_roundtrip (msin : ℚ → ℚ) (w : World)
    (x y z : ℤ) (b : ℕ) (hb : b ≤ 9) :
    World.getBlock (World.setBlock msin w x y z b) x y z = b := by
  obtain ⟨hx0, hx1⟩ := localCoord_bounds x
  obtain ⟨hy0, hy1⟩ := localCoord_bounds y
  obtain ⟨hz0, hz1⟩ := localCoord_bounds z
  unfold World.getBlock World.getBlockS World.setBlock World.getChunk
  dsimp only
  rw [if_pos rfl]
  dsimp only
  unfold writeBlock
  rw [if_pos ⟨by omega, by omega, rfl⟩]
  omega

/-- C10: `getBlock` is read-only — the state-passing translation of its
body returns the world unchanged (it materializes no chunk and flips no
dirty flag), and a missing chunk is read as air. -/
theorem C10_getBlock_readonly (w : World) (x y z : ℤ) :
    (World.getBlockS w x y z).2 = w ∧
    (World.getChunk w (Int.fdiv x CHUNK_SIZE) (Int.fdiv y CHUNK_SIZE)
        (Int.fdiv z CHUNK_SIZE) = none →
      World.getBlock w x y z = MainBlock.AIR) := by
  constructor
  · unfold World.getBlockS
    cases h : World.getChunk w (Int.fdiv x CHUNK_SIZE) (Int.fdiv y CHUNK_SIZE)
        (Int.fdiv z CHUNK_SIZE) <;> simp [h]
  · intro h
    unfold World.getBlock World.getBlockS
    dsimp only
    rw [h]

/-- Witness for C3 at a concrete negative coordinate and block type 4. -/
theorem C3_setBlock_getBlock_roundtrip_witness :
    (4 : ℕ) ≤ 9 ∧
    World.getBlock (World.setBlock (fun _ => 0)
        { chunks := fun _ => none, seed := 0 } (-1) (-5) (-33) 4)
      (-1) (-5) (-33) = 4 :=
  ⟨by norm_num,
   C3_setBlock_getBlock_roundtrip (fun _ => 0)
     { chunks := fun _ => none, seed := 0 } (-1) (-5) (-33) 4 (by norm_num)⟩

/-- Witness for C10 on the empty world at a concrete coordinate. -/
theorem C10_getBlock_readonly_witness :
    (World.getBlockS { chunks := fun _ => none, seed := 0 } 1 (-2) 3).2 =
      { chunks := fun _ => none, seed := 0 } ∧
    World.getBlock { chunks := fun _ => none, seed := 0 } 1 (-2) 3 =
      MainBlock.AIR :=
  ⟨(C10_getBlock_readonly { chunks := fun _ => none, seed := 0 } 1 (-2) 3).1,
   (C10_getBlock_readonly { chunks := fun _ => none, seed := 0 } 1 (-2) 3).2 rfl⟩

/-- C9: each worker's `onmessage` handler answers *every* message with a
reply that carries the request's id; an exception inside the `try` block
becomes an `ERROR` reply with the thrown message and the original request
echoed, and a request whose tag is not the worker's own becomes an
`ERROR` reply `"Unknown message type: ..."` echoing the original request. -/
theorem C9_workers_report_structured_errors
    (gen : ℤ → ℤ → ℤ → ℚ → GameConfig → Except String Chunk)
    (mb : Chunk → Option (ℤ × ℤ × ℤ → Option Chunk) → Except String MeshAcc)
    (msg : WMsg) :
    ((chunkWorkerOnMessage gen msg).id = msg.id ∧
     (∀ i cx cy cz seed config e, msg = WMsg.generate i cx cy cz seed config →
        gen cx cy cz seed config = .error e →
        chunkWorkerOnMessage gen msg = .error i e (some msg)) ∧
     ((∀ i cx cy cz seed config, msg ≠ WMsg.generate i cx cy cz seed config) →
        chunkWorkerOnMessage gen msg =
          .error msg.id ("Unknown message type: " ++ msg.typeName) (some msg))) ∧
    ((meshWorkerOnMessage mb msg).id = msg.id ∧
     (∀ i chunk nbs e, msg = WMsg.build i chunk nbs →
        mb chunk nbs = .error e →
        meshWorkerOnMessage mb msg = .error i e (some msg)) ∧
     ((∀ i chunk nbs, msg ≠ WMsg.build i chunk nbs) →
        meshWorkerOnMessage mb msg =
          .error msg.id ("Unknown message type: " ++ msg.typeName) (some msg))) := by
  refine ⟨⟨?_, ?_, ?_⟩, ?_, ?_, ?_⟩
  · cases msg with
    | generate i cx cy cz seed config =>
      unfold chunkWorkerOnMessage
      cases hg : gen cx cy cz seed config <;> simp [hg, WMsg.id, WReply.id]
    | build i chunk nbs => rfl
    | chunkReady i chunk => rfl
    | meshReady i key m => rfl
    | error i e => rfl
  · intro i cx cy cz seed config e hmsg hg
    subst hmsg
    unfold chunkWorkerOnMessage
    dsimp only
    rw [hg]
  · intro hne
    cases msg with
    | generate i cx cy cz seed config => exact absurd rfl (hne i cx cy cz seed config)
    | build i chunk nbs => rfl
    | chunkReady i chunk => rfl
    | meshReady i key m => rfl
    | error i e => rfl
  · cases msg with
    | build i chunk nbs =>
      unfold meshWorkerOnMessage
      cases hm : mb chunk nbs <;> simp [hm, WMsg.id, WReply.id]
    | generate i cx cy cz seed config => rfl
    | chunkReady i chunk => rfl
    | meshReady i key m => rfl
    | error i e => rfl
  · intro i chunk nbs e hmsg hm
    subst hmsg
    unfold meshWorkerOnMessage
    dsimp only
    rw [hm]
  · intro hne
    cases msg with
    | build i chunk nbs => exact absurd rfl (hne i chunk nbs)
    | generate i cx cy cz seed config => rfl
    | chunkReady i chunk => rfl
    | meshReady i key m => rfl
    | error i e => rfl

/-- Witness for C9: a generation request whose computation throws, and a
mesh worker receiving a message of the wrong tag. -/
theorem C9_workers_report_structured_errors_witness :
    chunkWorkerOnMessage (fun _ _ _ _ _ => .error "boom")
        (WMsg.generate 7 0 0 0 0 ⟨1, 0⟩) =
      .error 7 "boom" (some (WMsg.generate 7 0 0 0 0 ⟨1, 0⟩)) ∧
    meshWorkerOnMessage (fun _ _ => .error "mesh boom") (WMsg.error 9 "x") =
      .error 9 ("Unknown message type: " ++ "ERROR") (some (WMsg.error 9 "x")) :=
  ⟨(C9_workers_report_structured_errors (fun _ _ _ _ _ => .error "boom")
      (fun _ _ => .error "mesh boom")
      (WMsg.generate 7 0 0 0 0 ⟨1, 0⟩)).1.2.1 7 0 0 0 0 ⟨1, 0⟩ "boom" rfl rfl,
   (C9_workers_report_structured_errors (fun _ _ _ _ _ => .error "boom")
      (fun _ _ => .error "mesh boom")
      (WMsg.error 9 "x")).2.2.2 (fun _ _ _ h => WMsg.noConfusion h)⟩

/-- Flattening 3-element lists produced from `l` gives `3 * l.length`
elements. -/
theorem triple_flatten_length {α : Type} (l : List α) (f g h : α → ℚ) :
    ((l.map (fun v => [f v, g v, h v])).flatten).length = 3 * l.length := by
  induction l with
  | nil => rfl
  | cons a l ih =>
    simp only [List.map_cons, List.flatten_cons, List.length_append, ih,
      List.length_cons, List.length_nil]
    omega

/-- A face whose adjacent cell lies in the chunk and is opaque is not
rendered. -/
theorem shouldRenderFace_of_opaque (chunk : Chunk) (pos normal : ℤ × ℤ × ℤ)
    (nbs : Option (ℤ × ℤ × ℤ → Option Chunk))
    (hin : inChunkPos (addPos pos normal))
    (hop : MeshBuilder.isTransparentBlock
      (chunk.blocks (cellIndex (addPos pos normal))) = false) :
    MeshBuilder.shouldRenderFace chunk pos normal nbs = false := by
  have hb : chunk.blocks (cellIndex (addPos pos normal)) ≠ 0 := by
    intro h0
    rw [h0] at hop
    simp [MeshBuilder.isTransparentBlock, WorkerBlock.AIR] at hop
  unfold MeshBuilder.shouldRenderFace
  dsimp only
  unfold inChunkPos addPos at hin
  rw [if_pos hin]
  have : chunk.blocks
      (pos.1 + normal.1 + (pos.2.1 + normal.2.1) * 16 + (pos.2.2 + normal.2.2) * 256) =
      chunk.blocks (cellIndex (addPos pos normal)) := rfl
  rw [this, hop]
  simp [WorkerBlock.AIR, hb]

/-- A face whose adjacent cell lies in the chunk and is air is rendered. -/
theorem shouldRenderFace_of_air (chunk : Chunk) (pos normal : ℤ × ℤ × ℤ)
    (nbs : Option (ℤ × ℤ × ℤ → Option Chunk))
    (hin : inChunkPos (addPos pos normal))
    (hair : chunk.blocks (cellIndex (addPos pos normal)) = WorkerBlock.AIR) :
    MeshBuilder.shouldRenderFace chunk pos normal nbs = true := by
  unfold MeshBuilder.shouldRenderFace
  dsimp only
  unfold inChunkPos addPos at hin
  rw [if_pos hin]
  have : chunk.blocks
      (pos.1 + normal.1 + (pos.2.1 + normal.2.1) * 16 + (pos.2.2 + normal.2.2) * 256) =
      chunk.blocks (cellIndex (addPos pos normal)) := rfl
  rw [this, hair]
  rfl

/-- Counting lemma for the per-face fold: each rendered face contributes
12 vertex coordinates, 12 normal coordinates, 8 UV coordinates and 6
triangle indices. -/
theorem addFace_fold_counts (chunk : Chunk) (localPos : ℤ × ℤ × ℤ)
    (nbs : Option (ℤ × ℤ × ℤ → Option Chunk)) (worldPos : ℤ × ℤ × ℤ) :
    ∀ (l : List (((ℤ × ℤ × ℤ) × List (ℤ × ℤ × ℤ)) × List ℚ)) (acc : MeshAcc),
      (∀ e ∈ l, e.1.2.length = 4 ∧ e.2.length = 8) →
      ((l.foldl (MeshBuilder.addFace chunk localPos nbs worldPos) acc).vertices.length =
          acc.vertices.length +
            12 * l.countP (fun e => MeshBuilder.shouldRenderFace chunk localPos e.1.1 nbs) ∧
       (l.foldl (MeshBuilder.addFace chunk localPos nbs worldPos) acc).normals.length =
          acc.normals.length +
            12 * l.countP (fun e => MeshBuilder.shouldRenderFace chunk localPos e.1.1 nbs) ∧
       (l.foldl (MeshBuilder.addFace chunk localPos nbs worldPos) acc).uvs.length =
          acc.uvs.length +
            8 * l.countP (fun e => MeshBuilder.shouldRenderFace chunk localPos e.1.1 nbs) ∧
       (l.foldl (MeshBuilder.addFace chunk localPos nbs worldPos) acc).indices.length =
          acc.indices.length +
            6 * l.countP (fun e => MeshBuilder.shouldRenderFace chunk localPos e.1.1 nbs)) := by
  intro l
  induction l with
  | nil => intro acc _; simp
  | cons e l ih =>
    intro acc hlen
    obtain ⟨he4, he8⟩ := hlen e (List.mem_cons_self _ _)
    have hrest := fun e' he' => hlen e' (List.mem_cons_of_mem _ he')
    rw [List.foldl_cons]
    by_cases hr : MeshBuilder.shouldRenderFace chunk localPos e.1.1 nbs = true
    · have hstep : MeshBuilder.addFace chunk localPos nbs worldPos acc e =
          { vertices := acc.vertices ++
              (e.1.2.map (fun vtx =>
                [((worldPos.1 + vtx.1 : ℤ) : ℚ), ((worldPos.2.1 + vtx.2.1 : ℤ) : ℚ),
                 ((worldPos.2.2 + vtx.2.2 : ℤ) : ℚ)])).flatten,
            normals := acc.normals ++
              (e.1.2.map (fun _ =>
                [((e.1.1.1 : ℤ) : ℚ), ((e.1.1.2.1 : ℤ) : ℚ),
                 ((e.1.1.2.2 : ℤ) : ℚ)])).flatten,
            uvs := acc.uvs ++ e.2,
            indices := acc.indices ++
              [acc.vertices.length / 3, acc.vertices.length / 3 + 1,
               acc.vertices.length / 3 + 2, acc.vertices.length / 3,
               acc.vertices.length / 3 + 2, acc.vertices.length / 3 + 3] } := by
        unfold MeshBuilder.addFace
        rw [if_pos hr]
      obtain ⟨h1, h2, h3, h4⟩ :=
        ih (MeshBuilder.addFace chunk localPos nbs worldPos acc e) hrest
      rw [hstep] at h1 h2 h3 h4 ⊢
      rw [h1, h2, h3, h4]
      simp only [List.countP_cons, hr, if_true]
      simp only [List.length_append, triple_flatten_length, he4, he8,
        List.length_cons, List.length_nil]
      omega
    · have hstep : MeshBuilder.addFace chunk localPos nbs worldPos acc e = acc := by
        unfold MeshBuilder.addFace
        rw [if_neg hr]
      obtain ⟨h1, h2, h3, h4⟩ :=
        ih (MeshBuilder.addFace chunk localPos nbs worldPos acc e) hrest
      rw [hstep] at h1 h2 h3 h4 ⊢
      rw [h1, h2, h3, h4]
      simp only [List.countP_cons, hr, if_false]
      simp [Bool.not_eq_true] at hr
      simp [hr]

/-- Counting a predicate on first components across a zip with an at least
as long list counts it on the first list. -/
theorem countP_zip {α β : Type} (p : α → Bool) :
    ∀ (l1 : List α) (l2 : List β), l1.length ≤ l2.length →
      (l1.zip l2).countP (fun e => p e.1) = l1.countP p := by
  intro l1
  induction l1 with
  | nil => intro l2 _; rfl
  | cons a l ih =>
    intro l2 hlen
    cases l2 with
    | nil => simp at hlen
    | cons b l2 =>
      simp only [List.zip_cons_cons, List.countP_cons]
      rw [ih l2 (by simpa using hlen)]

/-- If exactly one element of a duplicate-free list satisfies `p`, the
count is 1. -/
theorem countP_eq_one_of_unique {α : Type} (p : α → Bool) :
    ∀ (l : List α) (t : α), t ∈ l → l.Nodup → p t = true →
      (∀ a ∈ l, a ≠ t → p a = false) → l.countP p = 1 := by
  intro l
  induction l with
  | nil => intro t ht; cases ht
  | cons a l ih =>
    intro t ht hnd hp hother
    rcases List.mem_cons.mp ht with rfl | htl
    · have hzero : l.countP p = 0 := by
        rw [List.countP_eq_zero]
        intro a' ha'
        have : a' ≠ t := fun he => (List.nodup_cons.mp hnd).1 (he ▸ ha')
        simp [hother a' (List.mem_cons_of_mem _ ha') this]
      simp [List.countP_cons, hp, hzero]
    · have hpa : p a = false := by
        refine hother a (List.mem_cons_self _ _) ?_
        intro he
        exact (List.nodup_cons.mp hnd).1 (he ▸ htl)
      rw [List.countP_cons, ih t htl (List.nodup_cons.mp hnd).2 hp
        (fun a' ha' => hother a' (List.mem_cons_of_mem _ ha'))]
      simp [hpa]

/-- Each of the UV quadruples has 8 coordinates. -/
theorem getTextureUV_length (i : ℕ) : (MeshBuilder.getTextureUV i).length = 8 := rfl

/-- `getTextureCoords` always returns six faces' worth of UVs. -/
theorem getTextureCoords_length (b : ℕ) :
    (MeshBuilder.getTextureCoords b).length = 6 := by
  unfold MeshBuilder.getTextureCoords
  split_ifs <;> rfl

/-- Every entry of `getTextureCoords` has 8 coordinates. -/
theorem getTextureCoords_entry_length (b : ℕ) :
    ∀ t ∈ MeshBuilder.getTextureCoords b, t.length = 8 := by
  unfold MeshBuilder.getTextureCoords
  split_ifs <;> intro t ht <;>
    first
      | (rcases List.mem_replicate.mp ht with ⟨-, rfl⟩; rfl)
      | (fin_cases ht <;> rfl)

/-- C6: for a non-air voxel, if all six adjacent cells (resolved within
the chunk) are opaque, `addBlockToMesh` adds nothing; if exactly one
adjacent cell is air and the other five are opaque (all within the
chunk), it adds exactly one quad: 4 vertices (12 coordinates, with 12
normal coordinates and 8 UV coordinates) and 6 triangle indices. -/
theorem C6_face_culling (chunk : Chunk) (pos worldPos : ℤ × ℤ × ℤ)
    (nbs : Option (ℤ × ℤ × ℤ → Option Chunk)) (blockType : ℕ) (acc : MeshAcc)
    (_hb : blockType ≠ WorkerBlock.AIR) :
    ((∀ f ∈ MeshBuilder.faces, inChunkPos (addPos pos f.1) ∧
        MeshBuilder.isTransparentBlock
          (chunk.blocks (cellIndex (addPos pos f.1))) = false) →
      MeshBuilder.addBlockToMesh blockType worldPos chunk pos nbs acc = acc) ∧
    (∀ f0 ∈ MeshBuilder.faces,
      inChunkPos (addPos pos f0.1) →
      chunk.blocks (cellIndex (addPos pos f0.1)) = WorkerBlock.AIR →
      (∀ f ∈ MeshBuilder.faces, f ≠ f0 → inChunkPos (addPos pos f.1) ∧
        MeshBuilder.isTransparentBlock
          (chunk.blocks (cellIndex (addPos pos f.1))) = false) →
      ((MeshBuilder.addBlockToMesh blockType worldPos chunk pos nbs acc).vertices.length =
          acc.vertices.length + 12 ∧
       (MeshBuilder.addBlockToMesh blockType worldPos chunk pos nbs acc).normals.length =
          acc.normals.length + 12 ∧
       (MeshBuilder.addBlockToMesh blockType worldPos chunk pos nbs acc).uvs.length =
          acc.uvs.length + 8 ∧
       (MeshBuilder.addBlockToMesh blockType worldPos chunk pos nbs acc).indices.length =
          acc.indices.length + 6)) := by
  have hfour : ∀ f ∈ MeshBuilder.faces, f.2.length = 4 := by decide
  constructor
  · intro hall
    unfold MeshBuilder.addBlockToMesh
    refine foldl_fix _ _ ?_ acc
    intro c e he
    have he1 : e.1 ∈ MeshBuilder.faces := (List.of_mem_zip he).1
    have hsrf := shouldRenderFace_of_opaque chunk pos e.1.1 nbs
      (hall e.1 he1).1 (hall e.1 he1).2
    unfold MeshBuilder.addFace
    rw [if_neg (by simp [hsrf])]
  · intro f0 hf0 hin hair hothers
    have hlen : ∀ e ∈ MeshBuilder.faces.zip (MeshBuilder.getTextureCoords blockType),
        e.1.2.length = 4 ∧ e.2.length = 8 := by
      intro e he
      obtain ⟨he1, he2⟩ := List.of_mem_zip he
      exact ⟨hfour e.1 he1, getTextureCoords_entry_length blockType e.2 he2⟩
    obtain ⟨h1, h2, h3, h4⟩ := addFace_fold_counts chunk pos nbs worldPos
      (MeshBuilder.faces.zip (MeshBuilder.getTextureCoords blockType)) acc hlen
    have hzipcount :
        (MeshBuilder.faces.zip (MeshBuilder.getTextureCoords blockType)).countP
            (fun e => MeshBuilder.shouldRenderFace chunk pos e.1.1 nbs) =
          MeshBuilder.faces.countP
            (fun f => MeshBuilder.shouldRenderFace chunk pos f.1 nbs) := by
      exact countP_zip (fun f => MeshBuilder.shouldRenderFace chunk pos f.1 nbs)
        MeshBuilder.faces (MeshBuilder.getTextureCoords blockType)
        (by rw [getTextureCoords_length]; decide)
    have hone : MeshBuilder.faces.countP
        (fun f => MeshBuilder.shouldRenderFace chunk pos f.1 nbs) = 1 := by
      refine countP_eq_one_of_unique _ MeshBuilder.faces f0 hf0 (by decide) ?_ ?_
      · exact shouldRenderFace_of_air chunk pos f0.1 nbs hin hair
      · intro f hf hne
        exact shouldRenderFace_of_opaque chunk pos f.1 nbs
          (hothers f hf hne).1 (hothers f hf hne).2
    rw [hzipcount, hone] at h1 h2 h3 h4
    unfold MeshBuilder.addBlockToMesh
    exact ⟨by rw [h1], by rw [h2], by rw [h3], by rw [h4]⟩

/-- Witness for C6: a stone voxel at local cell (1,1,1) whose upward
neighbor is air and whose other five neighbors are stone gains exactly one
quad. -/
theorem C6_face_culling_witness :
    (MeshBuilder.addBlockToMesh 3 (1, 1, 1)
        { position := (0, 0, 0),
          blocks := fun i => if i = cellIndex (1, 2, 1) then 0 else 3,
          isDirty := true }
        (1, 1, 1) none
        { vertices := [], normals := [], uvs := [], indices := [] }).vertices.length
        = 12 ∧
    (MeshBuilder.addBlockToMesh 3 (1, 1, 1)
        { position := (0, 0, 0),
          blocks := fun i => if i = cellIndex (1, 2, 1) then 0 else 3,
          isDirty := true }
        (1, 1, 1) none
        { vertices := [], normals := [], uvs := [], indices := [] }).normals.length
        = 12 ∧
    (MeshBuilder.addBlockToMesh 3 (1, 1, 1)
        { position := (0, 0, 0),
          blocks := fun i => if i = cellIndex (1, 2, 1) then 0 else 3,
          isDirty := true }
        (1, 1, 1) none
        { vertices := [], normals := [], uvs := [], indices := [] }).uvs.length
        = 8 ∧
    (MeshBuilder.addBlockToMesh 3 (1, 1, 1)
        { position := (0, 0, 0),
          blocks := fun i => if i = cellIndex (1, 2, 1) then 0 else 3,
          isDirty := true }
        (1, 1, 1) none
        { vertices := [], normals := [], uvs := [], indices := [] }).indices.length
        = 6 :=
  (C6_face_culling
      { position := (0, 0, 0),
        blocks := fun i => if i = cellIndex (1, 2, 1) then 0 else 3,
        isDirty := true }
      (1, 1, 1) (1, 1, 1) none 3
      { vertices := [], normals := [], uvs := [], indices := [] }
      (by decide)).2
    ((0, 1, 0), [(0, 1, 0), (0, 1, 1), (1, 1, 1), (1, 1, 0)]) (by decide)
    (by decide) (by decide) (by decide)

/-- Dropping entries with a different key does not change a lookup. -/
theorem find_filter_ne (p : List (ℕ × WorkerTask)) (i j : ℕ) (h : j ≠ i) :
    (p.filter (fun e => e.1 != i)).find? (fun e => e.1 == j) =
      p.find? (fun e => e.1 == j) := by
  induction p with
  | nil => rfl
  | cons e p ih =>
    rcases eq_or_ne e.1 i with he | he
    · rw [List.filter_cons_of_neg (by simp [he]), ih,
        List.find?_cons_of_neg _ (by simp [he, Ne.symm h])]
    · rw [List.filter_cons_of_pos (by simp [he])]
      by_cases hej : (e.1 == j) = true
      · rw [List.find?_cons_of_pos (p := fun e : ℕ × WorkerTask => e.1 == j) _ hej,
          List.find?_cons_of_pos (p := fun e : ℕ × WorkerTask => e.1 == j) _ hej]
      · rw [List.find?_cons_of_neg (p := fun e : ℕ × WorkerTask => e.1 == j) _ hej,
          List.find?_cons_of_neg (p := fun e : ℕ × WorkerTask => e.1 == j) _ hej, ih]

/-- `Map.set` then `Map.get` on the pending table. -/
theorem WP_pendingGet_set (p : List (ℕ × WorkerTask)) (i : ℕ) (t : WorkerTask)
    (j : ℕ) :
    WorkerPool.pendingGet (WorkerPool.pendingSet p i t) j =
      if j = i then some t else WorkerPool.pendingGet p j := by
  unfold WorkerPool.pendingGet WorkerPool.pendingSet
  by_cases h : j = i
  · subst h
    rw [if_pos rfl, List.find?_cons_of_pos _ (by simp)]
    rfl
  · rw [if_neg h, List.find?_cons_of_neg _ (by simp [Ne.symm h]),
      find_filter_ne p i j h]

/-- `Map.delete` then `Map.get` on the pending table. -/
theorem WP_pendingGet_delete (p : List (ℕ × WorkerTask)) (i j : ℕ) :
    WorkerPool.pendingGet (WorkerPool.pendingDelete p i) j =
      if j = i then none else WorkerPool.pendingGet p j := by
  unfold WorkerPool.pendingGet WorkerPool.pendingDelete
  by_cases h : j = i
  · subst h
    rw [if_pos rfl]
    induction p with
    | nil => rfl
    | cons e p ih =>
      rcases eq_or_ne e.1 j with he | he
      · rw [List.filter_cons_of_neg (by simp [he]), ih]
      · rw [List.filter_cons_of_pos (by simp [he]),
          List.find?_cons_of_neg (p := fun e : ℕ × WorkerTask => e.1 == j) _ (by simp [he]), ih]
  · rw [if_neg h, find_filter_ne p i j h]

/-- Deleting each queued task from the pending table removes exactly the
queued ids. -/
theorem WP_pendingGet_foldl_delete :
    ∀ (ts : List WorkerTask) (p : List (ℕ × WorkerTask)) (i : ℕ),
      WorkerPool.pendingGet
          (ts.foldl (fun p t => WorkerPool.pendingDelete p t.id) p) i =
        if i ∈ ts.map (·.id) then none else WorkerPool.pendingGet p i := by
  intro ts
  induction ts with
  | nil => intro p i; simp
  | cons t ts ih =>
    intro p i
    rw [List.foldl_cons, ih]
    by_cases hmem : i ∈ ts.map (·.id)
    · simp [hmem]
    · rw [if_neg hmem, WP_pendingGet_delete]
      by_cases hit : i = t.id
      · simp [hit]
      · simp [hit, hmem]

/-- C8: `clearQueue` rejects exactly the Queued tasks (in queue order),
removes exactly their ids from the pending table, empties the queue, and
leaves every worker handle — hence every Dispatched task — untouched;
a worker's later completion message still resolves (success) or rejects
(error reply) its held task's future as the first emitted event. -/
theorem C8_clearQueue_rejects_queued_only (s : PoolState) :
    (WorkerPool.clearQueue s).2 = s.taskQueue.map (fun t => Ev.rejected t.id) ∧
    (WorkerPool.clearQueue s).1.taskQueue = [] ∧
    (∀ i, WorkerPool.pendingGet (WorkerPool.clearQueue s).1.pendingTasks i =
      if i ∈ WorkerPool.queuedIds s then none
      else WorkerPool.pendingGet s.pendingTasks i) ∧
    (WorkerPool.clearQueue s).1.chunkWorkers = s.chunkWorkers ∧
    (WorkerPool.clearQueue s).1.meshWorkers = s.meshWorkers ∧
    (∀ k idx w t now,
      WorkerPool.workerAt (WorkerPool.clearQueue s).1 k idx = some w →
      w.currentTask = some t →
      (WorkerPool.handleWorkerMessage (WorkerPool.clearQueue s).1 k idx
          WorkerResponse.chunkReady now).2.head? = some (Ev.resolved t.id) ∧
      (∀ e, (WorkerPool.handleWorkerMessage (WorkerPool.clearQueue s).1 k idx
          (WorkerResponse.error e) now).2.head? = some (Ev.rejected t.id))) := by
  refine ⟨rfl, rfl, ?_, rfl, rfl, ?_⟩
  · intro i
    exact WP_pendingGet_foldl_delete s.taskQueue s.pendingTasks i
  · intro k idx w t now hw hcur
    unfold WorkerPool.workerAt at hw
    constructor
    · unfold WorkerPool.handleWorkerMessage
      rw [hw]
      dsimp only
      rw [hcur]
      rfl
    · intro e
      unfold WorkerPool.handleWorkerMessage
      rw [hw]
      dsimp only
      rw [hcur]
      rfl

/-- Witness for C8 on the demonstration pool: clearing rejects exactly the
queued task 7 and drops it from the pending table, and the busy worker's
later success message still resolves its task 5. -/
theorem C8_clearQueue_rejects_queued_only_witness :
    (WorkerPool.clearQueue demoPool).2 = [Ev.rejected 7] ∧
    WorkerPool.pendingGet (WorkerPool.clearQueue demoPool).1.pendingTasks 7 =
      none ∧
    (WorkerPool.handleWorkerMessage (WorkerPool.clearQueue demoPool).1
        PoolKind.chunk 0 WorkerResponse.chunkReady 1).2.head? =
      some (Ev.resolved 5) := by
  obtain ⟨h1, h2, h3, h4, h5, h6⟩ := C8_clearQueue_rejects_queued_only demoPool
  refine ⟨?_, ?_, ?_⟩
  · rw [h1]
    rfl
  · rw [h3 7]
    rw [if_pos (by decide)]
  · exact (h6 PoolKind.chunk 0 demoWorker demoTask5 1 rfl rfl).1

/-- The insertion scan stops exactly where the strictly-lower-priority
suffix begins: the prefix kept is the maximal prefix of priority `≥ p`. -/
theorem WP_insertIndexOf_take (p : ℕ) :
    ∀ (l : List WorkerTask),
      l.take (WorkerPool.insertIndexOf l p) =
        l.takeWhile (fun q => !decide (q.priority < p)) := by
  intro l
  induction l with
  | nil => rfl
  | cons q rest ih =>
    unfold WorkerPool.insertIndexOf
    by_cases hq : q.priority < p
    · simp [hq]
    · simp [hq, ih]

/-- Companion of `WP_insertIndexOf_take` for the dropped suffix. -/
theorem WP_insertIndexOf_drop (p : ℕ) :
    ∀ (l : List WorkerTask),
      l.drop (WorkerPool.insertIndexOf l p) =
        l.dropWhile (fun q => !decide (q.priority < p)) := by
  intro l
  induction l with
  | nil => rfl
  | cons q rest ih =>
    unfold WorkerPool.insertIndexOf
    by_cases hq : q.priority < p
    · simp [hq]
    · simp [hq, ih]

/-- `queueTask` splices the task after every queued task of priority
`≥` its own and before every queued task of strictly lower priority —
descending priority order with ties broken by arrival. -/
theorem WP_queueTask_splits (s : PoolState) (t : WorkerTask) :
    (WorkerPool.queueTask s t).taskQueue =
      s.taskQueue.takeWhile (fun q => !decide (q.priority < t.priority)) ++
        t :: s.taskQueue.dropWhile (fun q => !decide (q.priority < t.priority)) := by
  unfold WorkerPool.queueTask
  dsimp only
  rw [WP_insertIndexOf_take, WP_insertIndexOf_drop]

/-- Splicing at the scan point preserves the descending sort order of the
queue. -/
theorem WP_insert_sorted (t : WorkerTask) :
    ∀ (l : List WorkerTask),
      l.Pairwise (fun a b => b.priority ≤ a.priority) →
      (l.takeWhile (fun q => !decide (q.priority < t.priority)) ++
          t :: l.dropWhile (fun q => !decide (q.priority < t.priority))).Pairwise
        (fun a b => b.priority ≤ a.priority) := by
  intro l
  induction l with
  | nil =>
    intro _
    simp
  | cons q rest ih =>
    intro hs
    obtain ⟨hq, hrest⟩ := List.pairwise_cons.mp hs
    by_cases hlt : q.priority < t.priority
    · have hb1 : (!decide (q.priority < t.priority)) = false := by simp [hlt]
      rw [List.takeWhile_cons, List.dropWhile_cons, hb1]
      simp only [Bool.false_eq_true, if_false, List.nil_append]
      refine List.pairwise_cons.mpr ⟨?_, hs⟩
      intro b hb
      rcases List.mem_cons.mp hb with rfl | hbr
      · omega
      · have := hq b hbr
        omega
    · have hb1 : (!decide (q.priority < t.priority)) = true := by simp [hlt]
      rw [List.takeWhile_cons, List.dropWhile_cons, hb1]
      simp only [if_true, List.cons_append]
      refine List.pairwise_cons.mpr ⟨?_, ih hrest⟩
      intro b hb
      rcases List.mem_append.mp hb with hbt | hbc
      · exact hq b ((List.takeWhile_sublist _).subset hbt)
      · rcases List.mem_cons.mp hbc with rfl | hbd
        · omega
        · exact hq b ((List.dropWhile_sublist _).subset hbd)

/-- A pool whose workers are all busy has no idle worker to find. -/
theorem findIdx_none_of_all_busy (l : List WorkerInfo)
    (h : ∀ w ∈ l, w.busy = true) :
    l.findIdx? (fun w => !w.busy) = none := by
  rw [List.findIdx?_eq_none_iff]
  intro x hx
  simp [h x hx]

/-- When every worker of the addressed pool is busy, `submitTask` queues
the (fresh-id) task. -/
theorem WP_submitTask_all_busy (s : PoolState) (k : PoolKind) (prio : ℕ)
    (now : ℚ) (hb : ∀ w' ∈ WorkerPool.getPool s k, w'.busy = true) :
    WorkerPool.submitTask s k prio now =
      (WorkerPool.queueTask
        { s with
          nextTaskId := s.nextTaskId + 1,
          pendingTasks := WorkerPool.pendingSet s.pendingTasks (s.nextTaskId + 1)
            { id := s.nextTaskId + 1, priority := prio, timestamp := now,
              kind := k } }
        { id := s.nextTaskId + 1, priority := prio, timestamp := now, kind := k },
       []) := by
  unfold WorkerPool.submitTask
  dsimp only
  have hpool : WorkerPool.getPool
      { s with
        nextTaskId := s.nextTaskId + 1,
        pendingTasks := WorkerPool.pendingSet s.pendingTasks (s.nextTaskId + 1)
          { id := s.nextTaskId + 1, priority := prio, timestamp := now,
            kind := k } } k = WorkerPool.getPool s k := by
    cases k <;> rfl
  rw [hpool, findIdx_none_of_all_busy _ hb]

/-- queueTask only touches the queue: the id counter is unchanged. -/
theorem WP_queueTask_nextTaskId (s : PoolState) (t : WorkerTask) :
    (WorkerPool.queueTask s t).nextTaskId = s.nextTaskId := rfl

/-- Pool selection is unaffected by queueing a task onto a state whose
counter and pending table were just bumped. -/
theorem getPool_queueTask_pending (s : PoolState) (n : ℕ)
    (p : List (ℕ × WorkerTask)) (t : WorkerTask) (k' : PoolKind) :
    WorkerPool.getPool
        (WorkerPool.queueTask { s with nextTaskId := n, pendingTasks := p } t) k' =
      WorkerPool.getPool s k' := by
  cases k' <;> rfl

/-- C5: (1) a task submitted with no idle worker is spliced into the
shared priority queue after every task of `≥` priority and before every
task of strictly lower priority (stable, descending); (2) this preserves
the queue's descending order; (3) with all workers of the pool busy and an
empty queue, submitting LOW (0) then HIGH (2) leaves the queue
`[HIGH, LOW]`; (4) when a worker then frees, the queue head — the HIGH
task — is dispatched to it and the LOW task stays queued. -/
theorem C5_priority_queue_ordering :
    (∀ (s : PoolState) (t : WorkerTask),
      (WorkerPool.queueTask s t).taskQueue =
        s.taskQueue.takeWhile (fun q => !decide (q.priority < t.priority)) ++
          t :: s.taskQueue.dropWhile (fun q => !decide (q.priority < t.priority))) ∧
    (∀ (s : PoolState) (t : WorkerTask),
      s.taskQueue.Pairwise (fun a b => b.priority ≤ a.priority) →
      (WorkerPool.queueTask s t).taskQueue.Pairwise
        (fun a b => b.priority ≤ a.priority)) ∧
    (∀ (s : PoolState) (k : PoolKind) (n1 n2 : ℚ),
      (∀ w' ∈ WorkerPool.getPool s k, w'.busy = true) →
      s.taskQueue = [] →
      (WorkerPool.submitTask (WorkerPool.submitTask s k 0 n1).1 k 2 n2).1.taskQueue =
        [{ id := s.nextTaskId + 2, priority := 2, timestamp := n2, kind := k },
         { id := s.nextTaskId + 1, priority := 0, timestamp := n1, kind := k }]) ∧
    (∀ (s : PoolState) (k : PoolKind) (idx : ℕ) (w : WorkerInfo)
        (t0 t : WorkerTask) (rest : List WorkerTask) (now : ℚ),
      WorkerPool.workerAt s k idx = some w →
      w.currentTask = some t0 →
      s.taskQueue = t :: rest →
      ∃ w', WorkerPool.workerAt
          (WorkerPool.handleWorkerMessage s k idx WorkerResponse.chunkReady now).1
          k idx = some w' ∧
        w'.currentTask = some { t with timestamp := now } ∧
        (WorkerPool.handleWorkerMessage s k idx
            WorkerResponse.chunkReady now).1.taskQueue = rest ∧
        (WorkerPool.handleWorkerMessage s k idx WorkerResponse.chunkReady now).2 =
          [Ev.resolved t0.id, Ev.posted t.id]) := by
  refine ⟨fun s t => WP_queueTask_splits s t, ?_, ?_, ?_⟩
  · intro s t hs
    rw [WP_queueTask_splits]
    exact WP_insert_sorted t _ hs
  · intro s k n1 n2 hb hq
    rw [WP_submitTask_all_busy s k 0 n1 hb]
    have hb2 : ∀ w' ∈ WorkerPool.getPool
        (WorkerPool.queueTask
          { s with
            nextTaskId := s.nextTaskId + 1,
            pendingTasks := WorkerPool.pendingSet s.pendingTasks (s.nextTaskId + 1)
              { id := s.nextTaskId + 1, priority := 0, timestamp := n1, kind := k } }
          { id := s.nextTaskId + 1, priority := 0, timestamp := n1, kind := k }) k,
        w'.busy = true := by
      intro w' hw'
      apply hb
      rwa [getPool_queueTask_pending] at hw'
    rw [WP_submitTask_all_busy _ k 2 n2 hb2]
    dsimp only
    rw [WP_queueTask_splits]
    dsimp only
    rw [WP_queueTask_splits]
    dsimp only
    rw [hq]
    simp [WP_queueTask_nextTaskId]
  · intro s k idx w t0 t rest now hw hcur hq
    unfold WorkerPool.workerAt at hw
    obtain ⟨hlt, -⟩ := List.getElem?_eq_some_iff.mp hw
    cases k <;>
    · unfold WorkerPool.workerAt
      unfold WorkerPool.handleWorkerMessage
      rw [hw]
      dsimp only
      rw [hcur]
      dsimp only [WorkerPool.setPool, WorkerPool.getPool]
      unfold WorkerPool.processNextTask
      dsimp only
      rw [hq]
      dsimp only
      unfold WorkerPool.assignTaskToWorker
      dsimp only [WorkerPool.setPool, WorkerPool.getPool]
      rw [List.getElem?_set_self (by exact hlt)]
      dsimp only
      rw [List.set_set]
      exact ⟨_, List.getElem?_set_self (by exact hlt), rfl, rfl, rfl⟩

/-- C5 witness: on the demonstration pool, (a) queueing a NORMAL task into
the descending queue `[task7]` keeps it descending, (b) with the single
chunk worker busy and an empty queue, submitting LOW then HIGH leaves the
queue `[HIGH(id 9), LOW(id 8)]`, and (c) freeing the worker dispatches the
queued task 7 to it while resolving task 5. -/
theorem C5_priority_queue_ordering_witness :
    ((WorkerPool.queueTask demoPool demoTask5).taskQueue.Pairwise
        (fun a b => b.priority ≤ a.priority)) ∧
    ((WorkerPool.submitTask (WorkerPool.submitTask
        { demoPool with taskQueue := [] } PoolKind.chunk 0 1).1
        PoolKind.chunk 2 2).1.taskQueue =
      [{ id := 9, priority := 2, timestamp := 2, kind := PoolKind.chunk },
       { id := 8, priority := 0, timestamp := 1, kind := PoolKind.chunk }]) ∧
    (∃ w', WorkerPool.workerAt
        (WorkerPool.handleWorkerMessage demoPool PoolKind.chunk 0
          WorkerResponse.chunkReady 3).1 PoolKind.chunk 0 = some w' ∧
      w'.currentTask = some { demoTask7 with timestamp := 3 } ∧
      (WorkerPool.handleWorkerMessage demoPool PoolKind.chunk 0
          WorkerResponse.chunkReady 3).1.taskQueue = [] ∧
      (WorkerPool.handleWorkerMessage demoPool PoolKind.chunk 0
          WorkerResponse.chunkReady 3).2 = [Ev.resolved 5, Ev.posted 7]) := by
  refine ⟨?_, ?_, ?_⟩
  · exact C5_priority_queue_ordering.2.1 demoPool demoTask5 (by decide)
  · have h := C5_priority_queue_ordering.2.2.1
      { demoPool with taskQueue := [] } PoolKind.chunk 1 2 (by decide) rfl
    simpa using h
  · have h := C5_priority_queue_ordering.2.2.2 demoPool PoolKind.chunk 0
      demoWorker demoTask5 demoTask7 [] 3 rfl rfl rfl
    simpa using h

/-!
## Scheduler tracking invariant (C2)

The exclusivity the spec claims (queue XOR pending table) fails: `submitTask`
always records the task in the pending table, also when it then queues it.
What does hold is `WorkerPool.WF`, proved below to be established by the
constructor and preserved by every public operation.
-/

/-- Selecting the pool that `setPool` just replaced. -/
theorem WP_getPool_setPool_same (s : PoolState) (k : PoolKind)
    (ws : List WorkerInfo) :
    WorkerPool.getPool (WorkerPool.setPool s k ws) k = ws := by
  cases k <;> rfl

/-- Selecting the other pool after `setPool`. -/
theorem WP_getPool_setPool_other (s : PoolState) (k k' : PoolKind)
    (ws : List WorkerInfo) (h : k' ≠ k) :
    WorkerPool.getPool (WorkerPool.setPool s k ws) k' =
      WorkerPool.getPool s k' := by
  cases k <;> cases k' <;> first | rfl | exact absurd rfl h

/-- `assignTaskToWorker` never touches the queue. -/
theorem WP_assign_taskQueue (s : PoolState) (k : PoolKind) (i : ℕ)
    (task : WorkerTask) (now : ℚ) :
    (WorkerPool.assignTaskToWorker s k i task now).1.taskQueue = s.taskQueue := by
  unfold WorkerPool.assignTaskToWorker
  cases (WorkerPool.getPool s k)[i]? <;> [rfl; (cases k <;> rfl)]

/-- `assignTaskToWorker` never touches the pending table. -/
theorem WP_assign_pendingTasks (s : PoolState) (k : PoolKind) (i : ℕ)
    (task : WorkerTask) (now : ℚ) :
    (WorkerPool.assignTaskToWorker s k i task now).1.pendingTasks =
      s.pendingTasks := by
  unfold WorkerPool.assignTaskToWorker
  cases (WorkerPool.getPool s k)[i]? <;> [rfl; (cases k <;> rfl)]

/-- `assignTaskToWorker` never touches the id counter. -/
theorem WP_assign_nextTaskId (s : PoolState) (k : PoolKind) (i : ℕ)
    (task : WorkerTask) (now : ℚ) :
    (WorkerPool.assignTaskToWorker s k i task now).1.nextTaskId =
      s.nextTaskId := by
  unfold WorkerPool.assignTaskToWorker
  cases (WorkerPool.getPool s k)[i]? <;> [rfl; (cases k <;> rfl)]

/-- After `assignTaskToWorker`, the target worker holds the task (with its
timestamp refreshed) and is busy. -/
theorem WP_assign_workerAt_same (s : PoolState) (k : PoolKind) (i : ℕ)
    (task : WorkerTask) (now : ℚ) (w : WorkerInfo)
    (hw : (WorkerPool.getPool s k)[i]? = some w) :
    WorkerPool.workerAt (WorkerPool.assignTaskToWorker s k i task now).1 k i =
      some { w with busy := true,
                    currentTask := some { task with timestamp := now } } := by
  have hlen : i < (WorkerPool.getPool s k).length :=
    (List.getElem?_eq_some_iff.mp hw).1
  unfold WorkerPool.assignTaskToWorker
  rw [hw]
  dsimp only
  cases k <;> exact List.getElem?_set_self hlen

/-- After `assignTaskToWorker`, every other worker handle is unchanged. -/
theorem WP_assign_workerAt_ne (s : PoolState) (k : PoolKind) (i : ℕ)
    (task : WorkerTask) (now : ℚ) (k' : PoolKind) (j : ℕ)
    (h : ¬(k' = k ∧ j = i)) :
    WorkerPool.workerAt (WorkerPool.assignTaskToWorker s k i task now).1 k' j =
      WorkerPool.workerAt s k' j := by
  unfold WorkerPool.assignTaskToWorker
  cases hw : (WorkerPool.getPool s k)[i]? with
  | none => rfl
  | some w =>
    dsimp only
    cases k <;> cases k' <;>
      first
      | rfl
      | exact List.getElem?_set_ne (fun hij => h ⟨rfl, hij.symm⟩)

/-- Assigning a fresh task (not queued, not yet held, pending, within the
id bound) to any worker preserves the tracking invariant. -/
theorem WF_assign (s : PoolState) (k : PoolKind) (i : ℕ) (task : WorkerTask)
    (now : ℚ) (hWF : WorkerPool.WF s)
    (hq : task.id ∉ WorkerPool.queuedIds s)
    (hd : ¬ WorkerPool.dispatchedId s task.id)
    (hp : (WorkerPool.pendingGet s.pendingTasks task.id).isSome)
    (hb : task.id ≤ s.nextTaskId) :
    WorkerPool.WF (WorkerPool.assignTaskToWorker s k i task now).1 := by
  obtain ⟨W1, W2, W3, W4, W5, W6, W7⟩ := hWF
  cases hw : (WorkerPool.getPool s k)[i]? with
  | none =>
    have hA : (WorkerPool.assignTaskToWorker s k i task now).1 = s := by
      unfold WorkerPool.assignTaskToWorker
      rw [hw]
    rw [hA]
    exact ⟨W1, W2, W3, W4, W5, W6, W7⟩
  | some w =>
    have hQ := WP_assign_taskQueue s k i task now
    have hP := WP_assign_pendingTasks s k i task now
    have hN := WP_assign_nextTaskId s k i task now
    have hSame := WP_assign_workerAt_same s k i task now w hw
    have hNe := fun k' j h => WP_assign_workerAt_ne s k i task now k' j h
    have hQI : WorkerPool.queuedIds
        (WorkerPool.assignTaskToWorker s k i task now).1 =
        WorkerPool.queuedIds s := by
      unfold WorkerPool.queuedIds
      rw [hQ]
    have hD : ∀ x, WorkerPool.dispatchedId
        (WorkerPool.assignTaskToWorker s k i task now).1 x →
        x = task.id ∨ WorkerPool.dispatchedId s x := by
      intro x hx
      obtain ⟨k', idx', w0, hw0, hh⟩ := hx
      by_cases hki : k' = k ∧ idx' = i
      · obtain ⟨hk', hi'⟩ := hki
        subst hk'; subst hi'
        rw [hSame] at hw0
        injection hw0 with hw0'
        subst hw0'
        obtain ⟨t0, ht0, hid⟩ := hh
        dsimp only at ht0
        injection ht0 with ht0'
        rw [← ht0'] at hid
        dsimp only at hid
        exact Or.inl hid.symm
      · rw [hNe k' idx' hki] at hw0
        exact Or.inr ⟨k', idx', w0, hw0, hh⟩
    refine ⟨?_, ?_, ?_, ?_, ?_, ?_, ?_⟩
    · rw [hQ, hP]
      exact W1
    · rw [hP]
      intro k' idx' w0 x hw0 hh
      by_cases hki : k' = k ∧ idx' = i
      · obtain ⟨hk', hi'⟩ := hki
        subst hk'; subst hi'
        rw [hSame] at hw0
        injection hw0 with hw0'
        subst hw0'
        obtain ⟨t0, ht0, hid⟩ := hh
        dsimp only at ht0
        injection ht0 with ht0'
        rw [← ht0'] at hid
        dsimp only at hid
        rw [← hid]
        exact hp
      · rw [hNe k' idx' hki] at hw0
        exact W2 k' idx' w0 x hw0 hh
    · intro x hx
      obtain ⟨hxq, hxd⟩ := hx
      rw [hQI] at hxq
      rcases hD x hxd with rfl | hds
      · exact hq hxq
      · exact W3 x ⟨hxq, hds⟩
    · rw [hQI]
      exact W4
    · intro k1 k2 idx1 idx2 w1 w2 x h1 h2 hh1 hh2
      by_cases hk1 : k1 = k ∧ idx1 = i <;> by_cases hk2 : k2 = k ∧ idx2 = i
      · exact ⟨hk1.1.trans hk2.1.symm, hk1.2.trans hk2.2.symm⟩
      · obtain ⟨hk', hi'⟩ := hk1
        subst hk'; subst hi'
        rw [hSame] at h1
        injection h1 with h1'
        subst h1'
        obtain ⟨t0, ht0, hid⟩ := hh1
        dsimp only at ht0
        injection ht0 with ht0'
        rw [← ht0'] at hid
        dsimp only at hid
        rw [hNe k2 idx2 hk2] at h2
        exact absurd ⟨k2, idx2, w2, h2, by rw [hid]; exact hh2⟩ hd
      · obtain ⟨hk', hi'⟩ := hk2
        subst hk'; subst hi'
        rw [hSame] at h2
        injection h2 with h2'
        subst h2'
        obtain ⟨t0, ht0, hid⟩ := hh2
        dsimp only at ht0
        injection ht0 with ht0'
        rw [← ht0'] at hid
        dsimp only at hid
        rw [hNe k1 idx1 hk1] at h1
        exact absurd ⟨k1, idx1, w1, h1, by rw [hid]; exact hh1⟩ hd
      · rw [hNe k1 idx1 hk1] at h1
        rw [hNe k2 idx2 hk2] at h2
        exact W5 k1 k2 idx1 idx2 w1 w2 x h1 h2 hh1 hh2
    · rw [hN]
      intro x hx
      simp only [WorkerPool.liveId] at hx
      rcases hx with hxq | hxd
      · rw [hQI] at hxq
        exact W6 x (Or.inl hxq)
      · rcases hD x hxd with rfl | hds
        · exact hb
        · exact W6 x (Or.inr hds)
    · intro k' idx' w0 hw0 hbz
      by_cases hki : k' = k ∧ idx' = i
      · obtain ⟨hk', hi'⟩ := hki
        subst hk'; subst hi'
        rw [hSame] at hw0
        injection hw0 with hw0'
        subst hw0'
        dsimp only at hbz
        exact absurd hbz (by simp)
      · rw [hNe k' idx' hki] at hw0
        exact W7 k' idx' w0 hw0 hbz

/-- Pool selection ignores everything `queueTask` changes. -/
theorem WP_workerAt_queueTask (s : PoolState) (t : WorkerTask)
    (k : PoolKind) (j : ℕ) :
    WorkerPool.workerAt (WorkerPool.queueTask s t) k j =
      WorkerPool.workerAt s k j := by
  cases k <;> rfl

/-- The spliced queue is a permutation of pushing the task on top. -/
theorem WP_queueTask_perm (s : PoolState) (t : WorkerTask) :
    (WorkerPool.queueTask s t).taskQueue.Perm (t :: s.taskQueue) := by
  rw [WP_queueTask_splits]
  calc
    s.taskQueue.takeWhile (fun q => !decide (q.priority < t.priority)) ++
        t :: s.taskQueue.dropWhile (fun q => !decide (q.priority < t.priority))
        |>.Perm
        (t :: (s.taskQueue.takeWhile (fun q => !decide (q.priority < t.priority)) ++
          s.taskQueue.dropWhile (fun q => !decide (q.priority < t.priority)))) :=
      List.perm_middle
    _ = t :: s.taskQueue := by rw [List.takeWhile_append_dropWhile]

/-- Queueing a fresh task (not queued, not held, pending, within the id
bound) preserves the tracking invariant. -/
theorem WF_queueTask (s : PoolState) (task : WorkerTask)
    (hWF : WorkerPool.WF s)
    (hq : task.id ∉ WorkerPool.queuedIds s)
    (hd : ¬ WorkerPool.dispatchedId s task.id)
    (hp : (WorkerPool.pendingGet s.pendingTasks task.id).isSome)
    (hb : task.id ≤ s.nextTaskId) :
    WorkerPool.WF (WorkerPool.queueTask s task) := by
  obtain ⟨W1, W2, W3, W4, W5, W6, W7⟩ := hWF
  have hperm := WP_queueTask_perm s task
  have hpermIds : (WorkerPool.queuedIds (WorkerPool.queueTask s task)).Perm
      (task.id :: WorkerPool.queuedIds s) := by
    simpa [WorkerPool.queuedIds] using hperm.map (fun t => t.id)
  have hD : ∀ x, WorkerPool.dispatchedId (WorkerPool.queueTask s task) x ↔
      WorkerPool.dispatchedId s x := by
    intro x
    simp only [WorkerPool.dispatchedId, WP_workerAt_queueTask]
  refine ⟨?_, ?_, ?_, ?_, ?_, ?_, ?_⟩
  · intro t' ht'
    rcases List.mem_cons.mp (hperm.mem_iff.mp ht') with rfl | ht''
    · exact hp
    · exact W1 t' ht''
  · intro k' j w0 x hw0 hh
    rw [WP_workerAt_queueTask] at hw0
    exact W2 k' j w0 x hw0 hh
  · intro x hx
    obtain ⟨hxq, hxd⟩ := hx
    rw [hD] at hxd
    rcases List.mem_cons.mp (hpermIds.mem_iff.mp hxq) with rfl | hxq'
    · exact hd hxd
    · exact W3 x ⟨hxq', hxd⟩
  · exact hpermIds.nodup_iff.mpr (List.nodup_cons.mpr ⟨hq, W4⟩)
  · intro k1 k2 j1 j2 w1 w2 x h1 h2 hh1 hh2
    rw [WP_workerAt_queueTask] at h1 h2
    exact W5 k1 k2 j1 j2 w1 w2 x h1 h2 hh1 hh2
  · intro x hx
    simp only [WorkerPool.liveId] at hx
    rcases hx with hxq | hxd
    · rcases List.mem_cons.mp (hpermIds.mem_iff.mp hxq) with rfl | hxq'
      · exact hb
      · exact W6 x (Or.inl hxq')
    · rw [hD] at hxd
      exact W6 x (Or.inr hxd)
  · intro k' j w0 hw0 hbz
    rw [WP_workerAt_queueTask] at hw0
    exact W7 k' j w0 hw0 hbz

/-- Recording a fresh task under the bumped id keeps the tracking
invariant: the queue and workers are untouched, the pending table only
grows, the id bound moves up. -/
theorem WF_submit_aux (s : PoolState) (t : WorkerTask)
    (hWF : WorkerPool.WF s) :
    WorkerPool.WF
      { s with
        nextTaskId := s.nextTaskId + 1,
        pendingTasks :=
          WorkerPool.pendingSet s.pendingTasks (s.nextTaskId + 1) t } := by
  obtain ⟨W1, W2, W3, W4, W5, W6, W7⟩ := hWF
  have hW : ∀ (k : PoolKind) (j : ℕ),
      WorkerPool.workerAt
        { s with
          nextTaskId := s.nextTaskId + 1,
          pendingTasks :=
            WorkerPool.pendingSet s.pendingTasks (s.nextTaskId + 1) t } k j =
      WorkerPool.workerAt s k j := by
    intro k j
    cases k <;> rfl
  have hD : ∀ x, WorkerPool.dispatchedId
      { s with
        nextTaskId := s.nextTaskId + 1,
        pendingTasks :=
          WorkerPool.pendingSet s.pendingTasks (s.nextTaskId + 1) t } x ↔
      WorkerPool.dispatchedId s x := by
    intro x
    simp only [WorkerPool.dispatchedId, hW]
  refine ⟨?_, ?_, ?_, ?_, ?_, ?_, ?_⟩
  · intro t' ht'
    rw [WP_pendingGet_set]
    by_cases h : t'.id = s.nextTaskId + 1
    · rw [if_pos h]
      rfl
    · rw [if_neg h]
      exact W1 t' ht'
  · intro k' j w0 x hw0 hh
    rw [hW] at hw0
    rw [WP_pendingGet_set]
    by_cases h : x = s.nextTaskId + 1
    · rw [if_pos h]
      rfl
    · rw [if_neg h]
      exact W2 k' j w0 x hw0 hh
  · intro x hx
    obtain ⟨hxq, hxd⟩ := hx
    rw [hD] at hxd
    exact W3 x ⟨hxq, hxd⟩
  · exact W4
  · intro k1 k2 j1 j2 w1 w2 x h1 h2 hh1 hh2
    rw [hW] at h1 h2
    exact W5 k1 k2 j1 j2 w1 w2 x h1 h2 hh1 hh2
  · intro x hx
    simp only [WorkerPool.liveId] at hx
    have hx' : WorkerPool.liveId s x := by
      rcases hx with hxq | hxd
      · exact Or.inl hxq
      · exact Or.inr ((hD x).mp hxd)
    exact Nat.le_trans (W6 x hx') (Nat.le_succ _)
  · intro k' j w0 hw0 hbz
    rw [hW] at hw0
    exact W7 k' j w0 hw0 hbz

/-- `submitTask` preserves the tracking invariant, in both its dispatch
and its queue branch. -/
theorem WF_submitTask (s : PoolState) (k : PoolKind) (prio : ℕ) (now : ℚ)
    (hWF : WorkerPool.WF s) :
    WorkerPool.WF (WorkerPool.submitTask s k prio now).1 := by
  have W6 := hWF.2.2.2.2.2.1
  have hWF1 := WF_submit_aux s
    { id := s.nextTaskId + 1, priority := prio, timestamp := now, kind := k }
    hWF
  have hq1 : s.nextTaskId + 1 ∉ WorkerPool.queuedIds s := by
    intro hmem
    exact absurd (W6 _ (Or.inl hmem)) (by omega)
  have hd1 : ¬ WorkerPool.dispatchedId s (s.nextTaskId + 1) := by
    intro hdis
    exact absurd (W6 _ (Or.inr hdis)) (by omega)
  unfold WorkerPool.submitTask
  dsimp only
  split
  · exact WF_assign _ k _ _ now hWF1 hq1
      (by
        intro hdis
        exact hd1 (by
          obtain ⟨k', j, w0, hw0, hh⟩ := hdis
          exact ⟨k', j, w0, by cases k' <;> exact hw0, hh⟩))
      (by rw [WP_pendingGet_set, if_pos rfl]; rfl)
      (Nat.le_refl _)
  · exact WF_queueTask _ _ hWF1 hq1
      (by
        intro hdis
        exact hd1 (by
          obtain ⟨k', j, w0, hw0, hh⟩ := hdis
          exact ⟨k', j, w0, by cases k' <;> exact hw0, hh⟩))
      (by rw [WP_pendingGet_set, if_pos rfl]; rfl)
      (Nat.le_refl _)

/-- `processNextTask` preserves the tracking invariant: the popped head
was Queued, hence pending, fresh to every worker, and within the id
bound. -/
theorem WF_processNextTask (s : PoolState) (k : PoolKind) (i : ℕ) (now : ℚ)
    (hWF : WorkerPool.WF s) :
    WorkerPool.WF (WorkerPool.processNextTask s k i now).1 := by
  obtain ⟨W1, W2, W3, W4, W5, W6, W7⟩ := hWF
  unfold WorkerPool.processNextTask
  cases hq : s.taskQueue with
  | nil => exact ⟨W1, W2, W3, W4, W5, W6, W7⟩
  | cons t rest =>
    dsimp only
    have hmem : t ∈ s.taskQueue := by
      rw [hq]
      exact List.mem_cons_self t rest
    have hmemId : t.id ∈ WorkerPool.queuedIds s :=
      List.mem_map.mpr ⟨t, hmem, rfl⟩
    have hW : ∀ (k' : PoolKind) (j : ℕ),
        WorkerPool.workerAt
          { s with
            taskQueue := rest,
            stats := { s.stats with queuedTasks := rest.length } } k' j =
        WorkerPool.workerAt s k' j := by
      intro k' j
      cases k' <;> rfl
    have hD : ∀ x, WorkerPool.dispatchedId
        { s with
          taskQueue := rest,
          stats := { s.stats with queuedTasks := rest.length } } x ↔
        WorkerPool.dispatchedId s x := by
      intro x
      simp only [WorkerPool.dispatchedId, hW]
    have hQsub : ∀ x, x ∈ WorkerPool.queuedIds
        { s with
          taskQueue := rest,
          stats := { s.stats with queuedTasks := rest.length } } →
        x ∈ WorkerPool.queuedIds s := by
      intro x hx
      unfold WorkerPool.queuedIds at hx ⊢
      rw [hq]
      dsimp only at hx
      exact List.mem_cons_of_mem _ hx
    have hWF1 : WorkerPool.WF
        { s with
          taskQueue := rest,
          stats := { s.stats with queuedTasks := rest.length } } := by
      refine ⟨?_, ?_, ?_, ?_, ?_, ?_, ?_⟩
      · intro t' ht'
        exact W1 t' (by rw [hq]; exact List.mem_cons_of_mem _ ht')
      · intro k' j w0 x hw0 hh
        rw [hW] at hw0
        exact W2 k' j w0 x hw0 hh
      · intro x hx
        obtain ⟨hxq, hxd⟩ := hx
        rw [hD] at hxd
        exact W3 x ⟨hQsub x hxq, hxd⟩
      · have h4 := W4
        rw [WorkerPool.queuedIds, hq] at h4
        simp only [List.map_cons, List.nodup_cons] at h4
        exact h4.2
      · intro k1 k2 j1 j2 w1 w2 x h1 h2 hh1 hh2
        rw [hW] at h1 h2
        exact W5 k1 k2 j1 j2 w1 w2 x h1 h2 hh1 hh2
      · intro x hx
        simp only [WorkerPool.liveId] at hx
        rcases hx with hxq | hxd
        · exact W6 x (Or.inl (hQsub x hxq))
        · exact W6 x (Or.inr ((hD x).mp hxd))
      · intro k' j w0 hw0 hbz
        rw [hW] at hw0
        exact W7 k' j w0 hw0 hbz
    refine WF_assign _ k i t now hWF1 ?_ ?_ ?_ ?_
    · have hnd := W4
      rw [WorkerPool.queuedIds, hq] at hnd
      simp only [List.map_cons, List.nodup_cons] at hnd
      exact hnd.1
    · intro hdis
      rw [hD] at hdis
      exact W3 t.id ⟨hmemId, hdis⟩
    · exact W1 t hmem
    · exact W6 t.id (Or.inl hmemId)

/-- Replacing one worker handle by a task-less one (any stats) preserves
the tracking invariant. -/
theorem WF_free (s : PoolState) (k : PoolKind) (i : ℕ) (x : PoolStats)
    (w' : WorkerInfo) (hw' : w'.currentTask = none)
    (hWF : WorkerPool.WF s) :
    WorkerPool.WF
      { WorkerPool.setPool s k ((WorkerPool.getPool s k).set i w') with
        stats := x } := by
  obtain ⟨W1, W2, W3, W4, W5, W6, W7⟩ := hWF
  have hTQ : ({ WorkerPool.setPool s k ((WorkerPool.getPool s k).set i w') with
      stats := x } : PoolState).taskQueue = s.taskQueue := by
    cases k <;> rfl
  have hPD : ({ WorkerPool.setPool s k ((WorkerPool.getPool s k).set i w') with
      stats := x } : PoolState).pendingTasks = s.pendingTasks := by
    cases k <;> rfl
  have hN : ({ WorkerPool.setPool s k ((WorkerPool.getPool s k).set i w') with
      stats := x } : PoolState).nextTaskId = s.nextTaskId := by
    cases k <;> rfl
  have hdi : ∀ (k' : PoolKind) (j : ℕ) (w0 : WorkerInfo),
      WorkerPool.workerAt
        { WorkerPool.setPool s k ((WorkerPool.getPool s k).set i w') with
          stats := x } k' j = some w0 →
      w0 = w' ∨ WorkerPool.workerAt s k' j = some w0 := by
    intro k' j w0 hw0
    by_cases hj : j = i ∧ k' = k
    · obtain ⟨hj, hk⟩ := hj
      subst hj; subst hk
      have he : WorkerPool.workerAt
          { WorkerPool.setPool s k' ((WorkerPool.getPool s k').set j w') with
            stats := x } k' j = ((WorkerPool.getPool s k').set j w')[j]? := by
        cases k' <;> rfl
      rw [he, List.getElem?_set, if_pos rfl] at hw0
      by_cases hlen : j < (WorkerPool.getPool s k').length
      · rw [if_pos hlen] at hw0
        injection hw0 with h
        exact Or.inl h.symm
      · rw [if_neg hlen] at hw0
        exact Option.noConfusion hw0
    · have he : WorkerPool.workerAt
          { WorkerPool.setPool s k ((WorkerPool.getPool s k).set i w') with
            stats := x } k' j = WorkerPool.workerAt s k' j := by
        cases k <;> cases k' <;>
          first
          | rfl
          | exact List.getElem?_set_ne (fun hij => hj ⟨hij.symm, rfl⟩)
      rw [he] at hw0
      exact Or.inr hw0
  have hQI : WorkerPool.queuedIds
      { WorkerPool.setPool s k ((WorkerPool.getPool s k).set i w') with
        stats := x } = WorkerPool.queuedIds s := by
    unfold WorkerPool.queuedIds
    rw [hTQ]
  have hD : ∀ y, WorkerPool.dispatchedId
      { WorkerPool.setPool s k ((WorkerPool.getPool s k).set i w') with
        stats := x } y → WorkerPool.dispatchedId s y := by
    intro y hy
    obtain ⟨k', j, w0, hw0, hh⟩ := hy
    rcases hdi k' j w0 hw0 with rfl | hold
    · obtain ⟨t0, ht0, -⟩ := hh
      rw [hw'] at ht0
      exact Option.noConfusion ht0
    · exact ⟨k', j, w0, hold, hh⟩
  refine ⟨?_, ?_, ?_, ?_, ?_, ?_, ?_⟩
  · rw [hTQ, hPD]
    exact W1
  · rw [hPD]
    intro k' j w0 y hw0 hh
    rcases hdi k' j w0 hw0 with rfl | hold
    · obtain ⟨t0, ht0, -⟩ := hh
      rw [hw'] at ht0
      exact Option.noConfusion ht0
    · exact W2 k' j w0 y hold hh
  · intro y hy
    obtain ⟨hyq, hyd⟩ := hy
    rw [hQI] at hyq
    exact W3 y ⟨hyq, hD y hyd⟩
  · rw [hQI]
    exact W4
  · intro k1 k2 j1 j2 w1 w2 y h1 h2 hh1 hh2
    rcases hdi k1 j1 w1 h1 with rfl | ho1
    · obtain ⟨t0, ht0, -⟩ := hh1
      rw [hw'] at ht0
      exact Option.noConfusion ht0
    rcases hdi k2 j2 w2 h2 with rfl | ho2
    · obtain ⟨t0, ht0, -⟩ := hh2
      rw [hw'] at ht0
      exact Option.noConfusion ht0
    exact W5 k1 k2 j1 j2 w1 w2 y ho1 ho2 hh1 hh2
  · rw [hN]
    intro y hy
    simp only [WorkerPool.liveId] at hy
    rcases hy with hyq | hyd
    · rw [hQI] at hyq
      exact W6 y (Or.inl hyq)
    · exact W6 y (Or.inr (hD y hyd))
  · intro k' j w0 hw0 hbz
    rcases hdi k' j w0 hw0 with rfl | hold
    · exact hw'
    · exact W7 k' j w0 hold hbz

/-- Freeing the worker that held `task` while deleting `task` from the
pending table (any stats) preserves the tracking invariant. -/
theorem WF_free_delete (s : PoolState) (k : PoolKind) (i : ℕ)
    (w : WorkerInfo) (task : WorkerTask) (x : PoolStats) (w' : WorkerInfo)
    (hw : (WorkerPool.getPool s k)[i]? = some w)
    (hcur : w.currentTask = some task)
    (hw' : w'.currentTask = none)
    (hWF : WorkerPool.WF s) :
    WorkerPool.WF
      { WorkerPool.setPool s k ((WorkerPool.getPool s k).set i w') with
        stats := x,
        pendingTasks := WorkerPool.pendingDelete s.pendingTasks task.id } := by
  obtain ⟨W1, W2, W3, W4, W5, W6, W7⟩ := hWF
  have hlen : i < (WorkerPool.getPool s k).length :=
    (List.getElem?_eq_some_iff.mp hw).1
  have hholds : WorkerPool.holdsId w task.id := ⟨task, hcur, rfl⟩
  have hdisp : WorkerPool.dispatchedId s task.id := ⟨k, i, w, hw, hholds⟩
  have hTQ : ({ WorkerPool.setPool s k ((WorkerPool.getPool s k).set i w') with
      stats := x,
      pendingTasks := WorkerPool.pendingDelete s.pendingTasks task.id } :
      PoolState).taskQueue = s.taskQueue := by
    cases k <;> rfl
  have hN : ({ WorkerPool.setPool s k ((WorkerPool.getPool s k).set i w') with
      stats := x,
      pendingTasks := WorkerPool.pendingDelete s.pendingTasks task.id } :
      PoolState).nextTaskId = s.nextTaskId := by
    cases k <;> rfl
  have hPD : ({ WorkerPool.setPool s k ((WorkerPool.getPool s k).set i w') with
      stats := x,
      pendingTasks := WorkerPool.pendingDelete s.pendingTasks task.id } :
      PoolState).pendingTasks =
      WorkerPool.pendingDelete s.pendingTasks task.id := by
    cases k <;> rfl
  have hSame : WorkerPool.workerAt
      { WorkerPool.setPool s k ((WorkerPool.getPool s k).set i w') with
        stats := x,
        pendingTasks := WorkerPool.pendingDelete s.pendingTasks task.id }
      k i = some w' := by
    cases k <;> exact List.getElem?_set_self hlen
  have hdi : ∀ (k' : PoolKind) (j : ℕ) (w0 : WorkerInfo),
      WorkerPool.workerAt
        { WorkerPool.setPool s k ((WorkerPool.getPool s k).set i w') with
          stats := x,
          pendingTasks := WorkerPool.pendingDelete s.pendingTasks task.id }
        k' j = some w0 →
      w0 = w' ∨ WorkerPool.workerAt s k' j = some w0 := by
    intro k' j w0 hw0
    by_cases hj : j = i ∧ k' = k
    · obtain ⟨hj, hk⟩ := hj
      subst hj; subst hk
      rw [hSame] at hw0
      injection hw0 with h
      exact Or.inl h.symm
    · have he : WorkerPool.workerAt
          { WorkerPool.setPool s k ((WorkerPool.getPool s k).set i w') with
            stats := x,
            pendingTasks := WorkerPool.pendingDelete s.pendingTasks task.id }
          k' j = WorkerPool.workerAt s k' j := by
        cases k <;> cases k' <;>
          first
          | rfl
          | exact List.getElem?_set_ne (fun hij => hj ⟨hij.symm, rfl⟩)
      rw [he] at hw0
      exact Or.inr hw0
  have hQI : WorkerPool.queuedIds
      { WorkerPool.setPool s k ((WorkerPool.getPool s k).set i w') with
        stats := x,
        pendingTasks := WorkerPool.pendingDelete s.pendingTasks task.id } =
      WorkerPool.queuedIds s := by
    unfold WorkerPool.queuedIds
    rw [hTQ]
  have hD : ∀ y, WorkerPool.dispatchedId
      { WorkerPool.setPool s k ((WorkerPool.getPool s k).set i w') with
        stats := x,
        pendingTasks := WorkerPool.pendingDelete s.pendingTasks task.id } y →
      WorkerPool.dispatchedId s y := by
    intro y hy
    obtain ⟨k', j, w0, hw0, hh⟩ := hy
    rcases hdi k' j w0 hw0 with rfl | hold
    · obtain ⟨t0, ht0, -⟩ := hh
      rw [hw'] at ht0
      exact Option.noConfusion ht0
    · exact ⟨k', j, w0, hold, hh⟩
  refine ⟨?_, ?_, ?_, ?_, ?_, ?_, ?_⟩
  · rw [hTQ, hPD]
    intro t' ht'
    rw [WP_pendingGet_delete]
    by_cases h : t'.id = task.id
    · exact absurd ⟨List.mem_map.mpr ⟨t', ht', rfl⟩, by rw [h]; exact hdisp⟩
        (W3 t'.id)
    · rw [if_neg h]
      exact W1 t' ht'
  · rw [hPD]
    intro k' j w0 y hw0 hh
    rcases hdi k' j w0 hw0 with rfl | hold
    · obtain ⟨t0, ht0, -⟩ := hh
      rw [hw'] at ht0
      exact Option.noConfusion ht0
    · rw [WP_pendingGet_delete]
      by_cases h : y = task.id
      · subst h
        obtain ⟨hk, hji⟩ := W5 k' k j i w0 w task.id hold hw hh hholds
        subst hk; subst hji
        rw [hSame] at hw0
        injection hw0 with h0
        subst h0
        obtain ⟨t0, ht0, -⟩ := hh
        rw [hw'] at ht0
        exact Option.noConfusion ht0
      · rw [if_neg h]
        exact W2 k' j w0 y hold hh
  · intro y hy
    obtain ⟨hyq, hyd⟩ := hy
    rw [hQI] at hyq
    exact W3 y ⟨hyq, hD y hyd⟩
  · rw [hQI]
    exact W4
  · intro k1 k2 j1 j2 w1 w2 y h1 h2 hh1 hh2
    rcases hdi k1 j1 w1 h1 with rfl | ho1
    · obtain ⟨t0, ht0, -⟩ := hh1
      rw [hw'] at ht0
      exact Option.noConfusion ht0
    rcases hdi k2 j2 w2 h2 with rfl | ho2
    · obtain ⟨t0, ht0, -⟩ := hh2
      rw [hw'] at ht0
      exact Option.noConfusion ht0
    exact W5 k1 k2 j1 j2 w1 w2 y ho1 ho2 hh1 hh2
  · rw [hN]
    intro y hy
    simp only [WorkerPool.liveId] at hy
    rcases hy with hyq | hyd
    · rw [hQI] at hyq
      exact W6 y (Or.inl hyq)
    · exact W6 y (Or.inr (hD y hyd))
  · intro k' j w0 hw0 hbz
    rcases hdi k' j w0 hw0 with rfl | hold
    · exact hw'
    · exact W7 k' j w0 hold hbz

/-- `handleWorkerMessage` preserves the tracking invariant: the completed
task leaves both the worker handle and the pending table, and the next
queued task (if any) is dispatched to the freed worker. -/
theorem WF_handleWorkerMessage (s : PoolState) (k : PoolKind) (i : ℕ)
    (resp : WorkerResponse) (now : ℚ) (hWF : WorkerPool.WF s) :
    WorkerPool.WF (WorkerPool.handleWorkerMessage s k i resp now).1 := by
  cases k
  all_goals
    unfold WorkerPool.handleWorkerMessage
    split
    · exact hWF
    next w hw =>
      split
      · exact hWF
      next task hcur =>
        dsimp only
        refine WF_processNextTask _ _ i now ?_
        cases resp <;> exact WF_free_delete s _ i w task _ _ hw hcur rfl hWF

/-- `handleWorkerError` preserves the tracking invariant: the faulted
worker's in-flight task (if any) leaves the pending table, the worker is
freed, and the queue keeps draining. -/
theorem WF_handleWorkerError (s : PoolState) (k : PoolKind) (i : ℕ)
    (now : ℚ) (hWF : WorkerPool.WF s) :
    WorkerPool.WF (WorkerPool.handleWorkerError s k i now).1 := by
  cases k
  all_goals
    unfold WorkerPool.handleWorkerError
    split
    · exact hWF
    next w hw =>
      dsimp only
      refine WF_processNextTask _ _ i now ?_
      cases hcur : w.currentTask with
      | some task =>
        dsimp only
        exact WF_free_delete s _ i w task _ _ hw hcur rfl hWF
      | none =>
        dsimp only
        exact WF_free s _ i _ _ rfl hWF

/-- `clearQueue` preserves the tracking invariant: the queue empties, the
queued ids leave the pending table, dispatched tasks stay pending. -/
theorem WF_clearQueue (s : PoolState) (hWF : WorkerPool.WF s) :
    WorkerPool.WF (WorkerPool.clearQueue s).1 := by
  obtain ⟨W1, W2, W3, W4, W5, W6, W7⟩ := hWF
  have hW : ∀ (k : PoolKind) (j : ℕ),
      WorkerPool.workerAt (WorkerPool.clearQueue s).1 k j =
        WorkerPool.workerAt s k j := by
    intro k j
    cases k <;> rfl
  have hTQ : (WorkerPool.clearQueue s).1.taskQueue = [] := rfl
  have hQI : WorkerPool.queuedIds (WorkerPool.clearQueue s).1 = [] := rfl
  have hD : ∀ x, WorkerPool.dispatchedId (WorkerPool.clearQueue s).1 x ↔
      WorkerPool.dispatchedId s x := by
    intro x
    simp only [WorkerPool.dispatchedId, hW]
  refine ⟨?_, ?_, ?_, ?_, ?_, ?_, ?_⟩
  · intro t' ht'
    rw [hTQ] at ht'
    simp at ht'
  · intro k' j w0 x hw0 hh
    rw [hW] at hw0
    have hdis : WorkerPool.dispatchedId s x := ⟨k', j, w0, hw0, hh⟩
    have hnq : x ∉ WorkerPool.queuedIds s := fun hq => W3 x ⟨hq, hdis⟩
    show (WorkerPool.pendingGet
        (s.taskQueue.foldl (fun p t => WorkerPool.pendingDelete p t.id)
          s.pendingTasks) x).isSome
    rw [WP_pendingGet_foldl_delete]
    have hnq' : x ∉ s.taskQueue.map (fun t => t.id) := hnq
    rw [if_neg hnq']
    exact W2 k' j w0 x hw0 hh
  · intro x hx
    obtain ⟨hxq, -⟩ := hx
    rw [hQI] at hxq
    simp at hxq
  · rw [hQI]
    exact List.nodup_nil
  · intro k1 k2 j1 j2 w1 w2 x h1 h2 hh1 hh2
    rw [hW] at h1 h2
    exact W5 k1 k2 j1 j2 w1 w2 x h1 h2 hh1 hh2
  · intro x hx
    simp only [WorkerPool.liveId] at hx
    rcases hx with hxq | hxd
    · rw [hQI] at hxq
      simp at hxq
    · exact W6 x (Or.inr ((hD x).mp hxd))
  · intro k' j w0 hw0 hbz
    rw [hW] at hw0
    exact W7 k' j w0 hw0 hbz

/-- `dispose` leaves a trivially well-formed pool: no workers, no queue,
no pending table. -/
theorem WF_dispose (s : PoolState) : WorkerPool.WF (WorkerPool.dispose s).1 := by
  have hwn : ∀ (k : PoolKind) (j : ℕ),
      WorkerPool.workerAt (WorkerPool.dispose s).1 k j = none := by
    intro k j
    cases k <;> rfl
  have hqi : WorkerPool.queuedIds (WorkerPool.dispose s).1 = [] := rfl
  refine ⟨?_, ?_, ?_, ?_, ?_, ?_, ?_⟩
  · intro t' ht'
    have : t' ∈ ([] : List WorkerTask) := ht'
    simp at this
  · intro k' j w0 x hw0 hh
    rw [hwn] at hw0
    exact Option.noConfusion hw0
  · intro x hx
    obtain ⟨hxq, -⟩ := hx
    rw [hqi] at hxq
    simp at hxq
  · rw [hqi]
    exact List.nodup_nil
  · intro k1 k2 j1 j2 w1 w2 x h1 h2 hh1 hh2
    rw [hwn] at h1
    exact Option.noConfusion h1
  · intro x hx
    simp only [WorkerPool.liveId] at hx
    rcases hx with hxq | ⟨k', j, w0, hw0, -⟩
    · rw [hqi] at hxq
      simp at hxq
    · rw [hwn] at hw0
      exact Option.noConfusion hw0
  · intro k' j w0 hw0 hbz
    rw [hwn] at hw0
    exact Option.noConfusion hw0

/-- The constructor's pool is well-formed: idle task-less workers, empty
queue, empty pending table. -/
theorem WF_mkPool (c m : ℕ) : WorkerPool.WF (WorkerPool.mkPool c m) := by
  have hw : ∀ (k : PoolKind) (j : ℕ) (w : WorkerInfo),
      WorkerPool.workerAt (WorkerPool.mkPool c m) k j = some w →
        w = WorkerPool.newWorker := by
    intro k j w h
    cases k <;> exact List.eq_of_mem_replicate (List.getElem?_mem h)
  refine ⟨?_, ?_, ?_, ?_, ?_, ?_, ?_⟩
  · intro t' ht'
    have : t' ∈ ([] : List WorkerTask) := ht'
    simp at this
  · intro k' j w0 x hw0 hh
    rw [hw k' j w0 hw0] at hh
    obtain ⟨t0, ht0, -⟩ := hh
    exact Option.noConfusion ht0
  · intro x hx
    obtain ⟨hxq, -⟩ := hx
    have : x ∈ ([] : List ℕ) := hxq
    simp at this
  · exact List.nodup_nil
  · intro k1 k2 j1 j2 w1 w2 x h1 h2 hh1 hh2
    rw [hw k1 j1 w1 h1] at hh1
    obtain ⟨t0, ht0, -⟩ := hh1
    exact Option.noConfusion ht0
  · intro x hx
    simp only [WorkerPool.liveId] at hx
    rcases hx with hxq | ⟨k', j, w0, hw0, hh⟩
    · have : x ∈ ([] : List ℕ) := hxq
      simp at this
    · rw [hw k' j w0 hw0] at hh
      obtain ⟨t0, ht0, -⟩ := hh
      exact Option.noConfusion ht0
  · intro k' j w0 hw0 hbz
    rw [hw k' j w0 hw0]
    rfl

/-- C2 counterexample: the claimed exclusivity is false.  Starting from a
fresh one-worker pool, two `submitTask` calls leave the second task (id 2)
both in the priority queue and in the pending-task table at once, because
`submitTask` always records the task in the pending table before deciding
to queue it, and `queueTask` does not remove it. -/
theorem C2_task_in_queue_and_pending :
    2 ∈ WorkerPool.queuedIds
        (WorkerPool.submitTask
          (WorkerPool.submitTask (WorkerPool.mkPool 1 0) PoolKind.chunk 1 0).1
          PoolKind.chunk 1 0).1 ∧
    (WorkerPool.pendingGet
        (WorkerPool.submitTask
          (WorkerPool.submitTask (WorkerPool.mkPool 1 0) PoolKind.chunk 1 0).1
          PoolKind.chunk 1 0).1.pendingTasks 2).isSome := by
  decide

/-- C2: the tracking invariant that actually holds between WorkerPool
operations (`WorkerPool.WF`): every Queued and every Dispatched task is
recorded in the pending-task table (so Queued tasks sit in the queue *and*
the table — the spec's exclusivity is amended away), the queue and the
worker handles are disjoint and duplicate-free, a task is held by at most
one worker, live ids never exceed the id counter, and an idle worker holds
no task.  It holds for the constructor's pool and is preserved by
`submitTask`, `handleWorkerMessage`, `handleWorkerError`, `clearQueue` and
`dispose`. -/
theorem C2_tracking_invariant :
    (∀ c m : ℕ, WorkerPool.WF (WorkerPool.mkPool c m)) ∧
    (∀ (s : PoolState) (k : PoolKind) (prio : ℕ) (now : ℚ),
      WorkerPool.WF s → WorkerPool.WF (WorkerPool.submitTask s k prio now).1) ∧
    (∀ (s : PoolState) (k : PoolKind) (i : ℕ) (resp : WorkerResponse)
        (now : ℚ),
      WorkerPool.WF s →
      WorkerPool.WF (WorkerPool.handleWorkerMessage s k i resp now).1) ∧
    (∀ (s : PoolState) (k : PoolKind) (i : ℕ) (now : ℚ),
      WorkerPool.WF s →
      WorkerPool.WF (WorkerPool.handleWorkerError s k i now).1) ∧
    (∀ s : PoolState,
      WorkerPool.WF s → WorkerPool.WF (WorkerPool.clearQueue s).1) ∧
    (∀ s : PoolState, WorkerPool.WF (WorkerPool.dispose s).1) :=
  ⟨WF_mkPool,
   fun s k prio now h => WF_submitTask s k prio now h,
   fun s k i resp now h => WF_handleWorkerMessage s k i resp now h,
   fun s k i now h => WF_handleWorkerError s k i now h,
   fun s h => WF_clearQueue s h,
   fun s => WF_dispose s⟩

/-- C2 witness: the invariant holds along a concrete run — the fresh
one-worker pool, the pool after a submit, and the pool after then clearing
the queue. -/
theorem C2_tracking_invariant_witness :
    WorkerPool.WF (WorkerPool.mkPool 1 0) ∧
    WorkerPool.WF
      (WorkerPool.submitTask (WorkerPool.mkPool 1 0) PoolKind.chunk 1 0).1 ∧
    WorkerPool.WF
      (WorkerPool.clearQueue
        (WorkerPool.submitTask (WorkerPool.mkPool 1 0) PoolKind.chunk 1 0).1).1 :=
  ⟨C2_tracking_invariant.1 1 0,
   C2_tracking_invariant.2.1 (WorkerPool.mkPool 1 0) PoolKind.chunk 1 0
     (C2_tracking_invariant.1 1 0),
   C2_tracking_invariant.2.2.2.2.1 _
     (C2_tracking_invariant.2.1 (WorkerPool.mkPool 1 0) PoolKind.chunk 1 0
       (C2_tracking_invariant.1 1 0))⟩
